import Mathlib

/-!
Formal model of `src/simulation.py` of the PySimMIBCI repository.

The Python functions are shallowly embedded as executable Lean definitions:

* machine floats are idealised as rationals (`ℚ`);
* Python `round` (banker's rounding, half to even) is `pyRound`, Python
  `int()` truncation toward zero is `pyInt`;
* the numpy event matrix rows `[onset, reserved, class_id]` become the
  structure `Ev`;
* calls to the random generator (`np.random.permutation`,
  `rng.choice`, `rng.normal`) are modelled by passing the drawn data as an
  explicit argument, constrained by the contract of the drawing operation
  (for example a permutation argument together with a `List.Perm`
  hypothesis);
* the mutable Python lists inside the nested peak-parameter dictionaries are
  modelled by an explicit address store, so that copy and aliasing behaviour
  of `user_peak_params[label][:]` is represented faithfully.
-/

/-- Python `round` on an exact rational: round half to even (banker's
rounding), as used by `round(number)` in `generate_when`. -/
def pyRound (q : ℚ) : ℤ :=
  let f := ⌊q⌋
  let r := q - f
  if r < 1/2 then f
  else if 1/2 < r then f + 1
  else if f % 2 = 0 then f else f + 1

/-- Python `int()` on a rational: truncation toward zero. -/
def pyInt (q : ℚ) : ℤ :=
  if 0 ≤ q then ⌊q⌋ else ⌈q⌉

/-- One row of the integer events array produced by `generate_when`:
`events[i, 0]` is the sample onset, `events[i, 1]` is the unused middle
column, `events[i, 2]` is the class id. -/
structure Ev where
  onset : ℤ
  mid : ℤ
  cls : ℤ
  deriving DecidableEq, Repr

/-- The all-zero row of the freshly allocated `np.zeros((n, 3))` array. -/
def zeroEv : Ev := ⟨0, 0, 0⟩

/-- `repmat(np.arange(N_classes), 1, k)` flattened: the block
`0, 1, …, N_classes-1` tiled `k` times. -/
def repeatList (l : List ℕ) : ℕ → List ℕ
  | 0 => []
  | k + 1 => l ++ repeatList l k

/-- The balanced class-id sequence of `generate_when` before the random
permutation: `repmat(np.arange(N_classes), 1, int(N_trials/N_classes))`
flattened (lines 305-308). -/
def trials_ID (N_classes N_trials : ℕ) : List ℕ :=
  repeatList (List.range N_classes) (N_trials / N_classes)

/-- The trial-and-rest writing loop of `generate_when` (lines 336-350),
acting on the pre-allocated events array `events` with write cursor `cnt`
and running sample clock `current_time`.  `durations` holds, per class id,
`events_info[event_ID]['duration']` in milliseconds. -/
def whenLoop (durations : List ℚ) (sfreq : ℚ) (include_rest : Bool)
    (rest_duration : ℚ) :
    List ℕ → List Ev → ℕ → ℤ → List Ev
  | [], events, _, _ => events
  | event_ID :: tl, events, cnt, current_time =>
    let events1 := events.set cnt ⟨current_time, 0, (event_ID : ℤ)⟩
    let d := pyRound (durations.getD event_ID 0 / 1000 * sfreq)
    if include_rest then
      whenLoop durations sfreq include_rest rest_duration tl
        (events1.set (cnt + 1) ⟨current_time + d, 0, (durations.length : ℤ) + 1⟩)
        (cnt + 2)
        (current_time + d + pyRound (rest_duration / 1000 * sfreq))
    else
      whenLoop durations sfreq include_rest rest_duration tl
        events1 (cnt + 1) (current_time + d)

/-- `generate_when` (lines 272-351).  The call
`np.random.permutation(trials_ID)` is modelled by the explicit argument
`perm`; theorems about it take a hypothesis
`perm.Perm (trials_ID durations.length N_trials)`.  Class ids `0` to
`N_classes - 1` are the task classes in declaration order, `N_classes` is
baseline and `N_classes + 1` is rest. -/
def generate_when (durations : List ℚ) (N_trials : ℕ) (sfreq : ℚ)
    (perm : List ℕ) (include_rest : Bool) (rest_duration : ℚ)
    (include_baseline : Bool) (baseline_duration : ℚ) : List Ev :=
  let N_classes := durations.length
  let events0 : List Ev :=
    if include_baseline then
      (if include_rest then List.replicate (2 * N_trials + 1) zeroEv
       else List.replicate (N_trials + 1) zeroEv)
    else
      (if include_rest then List.replicate (2 * N_trials) zeroEv
       else List.replicate N_trials zeroEv)
  if include_baseline then
    whenLoop durations sfreq include_rest rest_duration perm
      (events0.set 0 ⟨0, 0, (N_classes : ℤ)⟩) 1
      (pyRound (baseline_duration / 1000 * sfreq))
  else
    whenLoop durations sfreq include_rest rest_duration perm events0 0 0

/-- The list of rows the `generate_when` loop writes when started at clock
`t`: one trial row per permuted class id, each optionally followed by a rest
row.  `whenLoop` is shown to overwrite the pre-allocated array with exactly
this block. -/
def builtList (durations : List ℚ) (sfreq : ℚ) (include_rest : Bool)
    (rest_duration : ℚ) : List ℕ → ℤ → List Ev
  | [], _ => []
  | event_ID :: tl, t =>
    let d := pyRound (durations.getD event_ID 0 / 1000 * sfreq)
    if include_rest then
      ⟨t, 0, (event_ID : ℤ)⟩ :: ⟨t + d, 0, (durations.length : ℤ) + 1⟩ ::
        builtList durations sfreq include_rest rest_duration tl
          (t + d + pyRound (rest_duration / 1000 * sfreq))
    else
      ⟨t, 0, (event_ID : ℤ)⟩ ::
        builtList durations sfreq include_rest rest_duration tl (t + d)

/-- The rounded sample lengths of the segments the loop walks through, in
order: per trial the rounded trial duration, then the rounded rest duration
when rest segments are included. -/
def segDurs (durations : List ℚ) (sfreq : ℚ) (include_rest : Bool)
    (rest_duration : ℚ) : List ℕ → List ℤ
  | [] => []
  | event_ID :: tl =>
    pyRound (durations.getD event_ID 0 / 1000 * sfreq) ::
      (if include_rest then
        pyRound (rest_duration / 1000 * sfreq) ::
          segDurs durations sfreq include_rest rest_duration tl
      else segDurs durations sfreq include_rest rest_duration tl)

/-- All rounded segment lengths of a `generate_when` run, the optional
leading baseline segment included. -/
def allSegDurs (durations : List ℚ) (sfreq : ℚ) (include_rest : Bool)
    (rest_duration : ℚ) (include_baseline : Bool) (baseline_duration : ℚ)
    (perm : List ℕ) : List ℤ :=
  (if include_baseline then [pyRound (baseline_duration / 1000 * sfreq)]
   else []) ++ segDurs durations sfreq include_rest rest_duration perm

/-! ### `set_peak_amplitudes` (lines 49-83)

Python's nested dictionaries hold mutable lists of peak parameters.  The
lists live in an explicit address store, so that the per-task copies made by
`user_peak_params[label][:]` and the in-place updates `…[task][1] = value`
keep their Python aliasing behaviour.  The base table `user_peak_params`
maps a label name to the address of its parameter list; the produced
`simulation_peak_params` table maps a label and a task to the address of
the task's own copy. -/

/-- A heap of Python list objects: the next fresh address and the contents
at every address. -/
structure Store where
  next : ℕ
  mem : ℕ → List ℚ

/-- Allocate a fresh list object holding `v`. -/
def alloc (s : Store) (v : List ℚ) : ℕ × Store :=
  (s.next, ⟨s.next + 1, fun a => if a = s.next then v else s.mem a⟩)

/-- The in-place element assignment `lst[1] = v` on the list at address
`a`. -/
def writeIdx1 (s : Store) (a : ℕ) (v : ℚ) : Store :=
  ⟨s.next, fun x => if x = a then (s.mem a).set 1 v else s.mem x⟩

/-- One row of `simulation_peak_params`: task name to address of that
task's parameter-list copy. -/
abbrev Row := List (String × ℕ)

/-- `simulation_peak_params`: label name to its row. -/
abbrev Table := List (String × Row)

/-- Dictionary lookup by key (first matching entry). -/
def lookup' (key : String) : List (String × α) → Option α
  | [] => none
  | (k, v) :: rest => if k = key then some v else lookup' key rest

/-- The inner copy loop `for task in MI_tasks:
`simulation_peak_params[label][task] = user_peak_params[label][:]` (line
71): one fresh shallow copy of the base list at `ba` per task. -/
def copyTasks (ba : ℕ) (tasks : List String) (s : Store) : Row × Store :=
  match tasks with
  | [] => ([], s)
  | t :: ts =>
    let p := alloc s (s.mem ba)
    let r := copyTasks ba ts p.2
    ((t, p.1) :: r.1, r.2)

/-- The outer copy loop over `labels_names` (lines 68-71). -/
def copyLabels (tasks : List String) (base : List (String × ℕ))
    (s : Store) : Table × Store :=
  match base with
  | [] => ([], s)
  | (l, ba) :: rest =>
    let p := copyTasks ba tasks s
    let r := copyLabels tasks rest p.2
    ((l, p.1) :: r.1, r.2)

/-- ℕess of the parameter list of `(label, task)` in the produced
table. -/
def lookupCell (tbl : Table) (l t : String) : Option ℕ :=
  (lookup' l tbl).bind (fun row => lookup' t row)

/-- `simulation_peak_params[l][t][1] = v`: a `KeyError` on a missing label
or task is modelled by `none`. -/
def setCell (tbl : Table) (s : Store) (l t : String) (v : ℚ) :
    Option Store :=
  (lookupCell tbl l t).map (fun a => writeIdx1 s a v)

/-- `set_peak_amplitudes(MI_tasks, user_peak_params, reduction)`
(lines 49-83): copy the base parameter list for every label and task, then
overwrite entry 1 (the relative power) of the precentral labels for the
requested tasks. -/
def set_peak_amplitudes (MI_tasks : List String)
    (user_peak_params : List (String × ℕ)) (reduction : ℚ)
    (s : Store) : Option (Table × Store) :=
  let p := copyLabels MI_tasks user_peak_params s
  let tbl := p.1
  let step1 : Option Store :=
    if ("MI/left") ∈ MI_tasks then
      (setCell tbl p.2 ("G_precentral-lh") ("MI/left") 0.4).bind
        (fun s1 => setCell tbl s1 ("G_precentral-rh") ("MI/left")
          (0.4 * (1 - reduction)))
    else some p.2
  let step2 : Option Store :=
    step1.bind (fun s1 =>
      if ("MI/right") ∈ MI_tasks then
        (setCell tbl s1 ("G_precentral-rh") ("MI/right") 0.4).bind
          (fun s2 => setCell tbl s2 ("G_precentral-lh") ("MI/right")
            (0.4 * (1 - reduction)))
      else some s1)
  let step3 : Option Store :=
    step2.bind (fun s2 =>
      if ("rest") ∈ MI_tasks then
        (setCell tbl s2 ("G_precentral-rh") ("rest") 0.4).bind
          (fun s3 => setCell tbl s3 ("G_precentral-lh") ("rest") 0.4)
      else some s2)
  step3.map (fun sf => (tbl, sf))

/-- The parameter list stored for `(label, task)` after a call. -/
def readCell (tbl : Table) (s : Store) (l t : String) : Option (List ℚ) :=
  (lookupCell tbl l t).map s.mem

/-- Entry 1 (the relative power in dB) stored for `(label, task)`. -/
def readIdx1 (tbl : Table) (s : Store) (l t : String) : Option ℚ :=
  (readCell tbl s l t).map (fun v => v.getD 1 0)

/-- The `(label, task, value)` assignments lines 72-82 perform, in program
order, for the given requested task set. -/
def writesFor (MI_tasks : List String) (reduction : ℚ) :
    List (String × String × ℚ) :=
  (if ("MI/left") ∈ MI_tasks then
    [("G_precentral-lh", "MI/left", 0.4),
     ("G_precentral-rh", "MI/left", 0.4 * (1 - reduction))]
   else []) ++
  (if ("MI/right") ∈ MI_tasks then
    [("G_precentral-rh", "MI/right", 0.4),
     ("G_precentral-lh", "MI/right", 0.4 * (1 - reduction))]
   else []) ++
  (if ("rest") ∈ MI_tasks then
    [("G_precentral-rh", "rest", 0.4),
     ("G_precentral-lh", "rest", 0.4)]
   else [])

/-- Run a list of cell assignments on the store (assignments whose cell is
absent from the table are skipped; in the verified uses every cell is
present). -/
def applyCellWritesT (tbl : Table) (s : Store) :
    List (String × String × ℚ) → Store
  | [] => s
  | (l, t, v) :: rest =>
    match lookupCell tbl l t with
    | some a => applyCellWritesT tbl (writeIdx1 s a v) rest
    | none => applyCellWritesT tbl s rest

/-- The parameter list `set_peak_amplitudes` leaves in the cell of
`(label, task)`: the label's base list with entry 1 replaced by the last
matching assignment of lines 72-82, if any. -/
def expectedCellVal (v : List ℚ) (MI_tasks : List String) (reduction : ℚ)
    (l t : String) : List ℚ :=
  (writesFor MI_tasks reduction).foldl
    (fun acc w => if w.1 = l ∧ w.2.1 = t then acc.set 1 w.2.2 else acc) v

/-! ### `generate_what_failed` (lines 160-269)

Only the deterministic combinatorial parts are embedded: the bad-trials
vector construction (lines 200-206) and the per-task sub-vector extraction
of the epoching loop (lines 255-258).  The draw
`rng.choice(MI_positions, int(p_failed*N_trials/2))` is modelled by the
explicit argument `picks`; its contract (sampling with replacement from
`MI_positions`) is the hypothesis that every element of `picks` lies in
`MI_positions` and that `picks` has the requested length. -/

/-- Line 204:
`np.logical_or(events[:, 2] == 0, events[:, 2] == 1).nonzero()[0]`, the
row indices whose class id is 0 or 1. -/
def MI_positions (events : List Ev) : List ℕ :=
  (List.range events.length).filter
    (fun i => (events.getD i zeroEv).cls = 0 ∨ (events.getD i zeroEv).cls = 1)

/-- Lines 201 and 206: a zero vector with one entry per event row, with the
drawn positions set to 1. -/
def bad_trials_vector (n : ℕ) (picks : List ℕ) : List Bool :=
  picks.foldl (fun v j => v.set j true) (List.replicate n false)

/-- Lines 255-258 as the code runs them: the sub-vector of the bad-trials
vector for the task at 0-based declaration position `i`.  Because the loop
is `for task_ID, task in enumerate(MI_tasks, 1)`, the rows selected are
those whose class id equals `i + 1`. -/
def bad_trials_vector_tmp (events : List Ev) (bad : List Bool) (i : ℕ) :
    List Bool :=
  ((List.range events.length).filter
      (fun j => (events.getD j zeroEv).cls = (i : ℤ) + 1)).map
    (fun j => bad.getD j false)

/-- Follows the spec's words (claim C2): the sub-vector for the task at
declaration position `i` is taken from exactly the event rows whose class
id equals `i`. -/
def bad_trials_vector_tmp_spec (events : List Ev) (bad : List Bool)
    (i : ℕ) : List Bool :=
  ((List.range events.length).filter
      (fun j => (events.getD j zeroEv).cls = (i : ℤ))).map
    (fun j => bad.getD j false)

/-! ### `theta_activity` / `alpha_activity` (lines 383-463)

The stochastic stage (Gaussian noise and the Butterworth bandpass filter,
lines 407-413 and 449-455) is abstracted as the input sequence; the
envelope logic of lines 414-421 and 456-463 is embedded exactly. -/

/-- `np.linspace a b n` on exact rationals: `n` evenly spaced points from
`a` to `b` inclusive. -/
def linspace (a b : ℚ) (n : ℕ) : List ℚ :=
  if n = 1 then [a]
  else (List.range n).map
    (fun i : ℕ => a + (b - a) * (i : ℚ) / ((n : ℚ) - 1))

/-- Lines 414-421 of `theta_activity`: the fatigue power envelope applied
to the band-filtered activity, then the `1e-8` unit scaling.  The scaling
mask is applied only when `scale != 1`; an unknown `increase_dynamic`
leaves the activity unscaled. -/
def theta_activity (source_theta_activity : List ℚ)
    (increase_dynamic : String) (scale : ℚ) : List ℚ :=
  let act :=
    if scale ≠ 1 then
      if increase_dynamic = "linear" then
        List.zipWith (· * ·) source_theta_activity
          (linspace 0 scale source_theta_activity.length)
      else if increase_dynamic = "constant" then
        source_theta_activity.map (· * scale)
      else source_theta_activity
    else source_theta_activity
  act.map (fun x => (1 / 100000000 : ℚ) * x)

/-- Lines 456-463 of `alpha_activity`: identical envelope logic and the
same `1e-8` unit scaling (line 463). -/
def alpha_activity (source_alpha_activity : List ℚ)
    (increase_dynamic : String) (scale : ℚ) : List ℚ :=
  let act :=
    if scale ≠ 1 then
      if increase_dynamic = "linear" then
        List.zipWith (· * ·) source_alpha_activity
          (linspace 0 scale source_alpha_activity.length)
      else if increase_dynamic = "constant" then
        source_alpha_activity.map (· * scale)
      else source_alpha_activity
    else source_alpha_activity
  act.map (fun x => (1 / 100000000 : ℚ) * x)

/-! ### Fatigue session split (lines 486 and 569-572) -/

/-- `N_samples_alert = int(fatigue_start*source_simulator.n_times)`
(line 569, identically line 486). -/
def N_samples_alert (fatigue_start : ℚ) (n_times : ℕ) : ℤ :=
  pyInt (fatigue_start * n_times)

/-- `N_samples_fatigue = source_simulator.n_times - N_samples_alert`
(line 572). -/
def N_samples_fatigue (fatigue_start : ℚ) (n_times : ℕ) : ℤ :=
  n_times - N_samples_alert fatigue_start n_times

/-! ### Witness fixtures: a concrete base peak-parameter table and store -/

/-- A concrete store for witnesses: two allocated base parameter lists
`[center 10 Hz, power 1 dB, bandwidth 3 Hz]` at addresses 0 and 1. -/
def storeC : Store :=
  ⟨2, fun a => if a = 0 then [10, 1, 3] else if a = 1 then [10, 1, 3] else []⟩

/-- A concrete `user_peak_params` table for witnesses. -/
def baseC : List (String × ℕ) :=
  [("G_precentral-lh", 0), ("G_precentral-rh", 1)]

/-! ## General list helpers -/

theorem list_set_decomp {α : Type} :
    ∀ (l : List α) (n : ℕ), n < l.length → ∀ (a : α),
      l.set n a = l.take n ++ a :: l.drop (n + 1)
  | [], n, h, _ => absurd h (by simp)
  | x :: xs, 0, _, a => by simp
  | x :: xs, n + 1, h, a => by
    simp only [List.set, List.take, List.drop, List.cons_append, List.cons.injEq,
      true_and]
    exact list_set_decomp xs n (by simpa using h) a

theorem list_take_len_add {α : Type} :
    ∀ (l₁ l₂ : List α) (n : ℕ), (l₁ ++ l₂).take (l₁.length + n) = l₁ ++ l₂.take n
  | [], _, _ => by simp
  | x :: xs, l₂, n => by
    simpa [Nat.succ_add] using list_take_len_add xs l₂ n

theorem list_drop_len_add {α : Type} :
    ∀ (l₁ l₂ : List α) (n : ℕ), (l₁ ++ l₂).drop (l₁.length + n) = l₂.drop n
  | [], _, _ => by simp
  | x :: xs, l₂, n => by
    simpa [Nat.succ_add] using list_drop_len_add xs l₂ n

theorem list_getD_set_self {α : Type} :
    ∀ (l : List α) (i : ℕ) (x d : α), i < l.length → (l.set i x).getD i d = x
  | [], i, _, _, h => absurd h (by simp)
  | y :: ys, 0, x, d, _ => rfl
  | y :: ys, i + 1, x, d, h =>
    list_getD_set_self ys i x d (by simpa using h)

theorem list_getD_set_ne {α : Type} :
    ∀ (l : List α) (i j : ℕ) (x d : α), i ≠ j → (l.set i x).getD j d = l.getD j d
  | [], _, _, _, _, _ => rfl
  | y :: ys, 0, 0, x, d, h => absurd rfl h
  | y :: ys, 0, j + 1, x, d, _ => rfl
  | y :: ys, i + 1, 0, x, d, _ => rfl
  | y :: ys, i + 1, j + 1, x, d, h =>
    list_getD_set_ne ys i j x d (fun hij => h (by omega))

theorem list_getD_replicate {α : Type} :
    ∀ (n i : ℕ) (a : α), (List.replicate n a).getD i a = a
  | 0, i, a => rfl
  | n + 1, 0, a => rfl
  | n + 1, i + 1, a => list_getD_replicate n i a

/-! ## C8: the fatigue session split -/

/-- Claim C8 (corrected), counterexample: with `fatigue_start = 1/2` and
`n_times = 3` the code's alert length is `int(1.5) = 1`, not
`round(1.5) = 2` as the claim states. -/
theorem C8_fatigue_split_counterexample :
    N_samples_alert (1/2) 3 = 1 ∧ pyRound ((1/2 : ℚ) * (3 : ℕ)) = 2 ∧
    ¬ N_samples_alert (1/2) 3 = pyRound ((1/2 : ℚ) * (3 : ℕ)) := by
  refine ⟨?_, ?_, ?_⟩ <;> norm_num [N_samples_alert, pyInt, pyRound]

/-- Claim C8 (amended): for every `fatigue_start` in `(0,1)`, the
alert-segment length is the integer truncation (the floor)
of `fatigue_start * n_times`, not its rounding; it lies between `0` and
`n_times`, and the alert and fatigue segment lengths sum to `n_times`
exactly. -/
theorem C8_fatigue_split_amended (fatigue_start : ℚ) (n_times : ℕ)
    (h0 : 0 < fatigue_start) (h1 : fatigue_start < 1) :
    N_samples_alert fatigue_start n_times = ⌊fatigue_start * n_times⌋ ∧
    0 ≤ N_samples_alert fatigue_start n_times ∧
    N_samples_alert fatigue_start n_times ≤ n_times ∧
    N_samples_alert fatigue_start n_times +
      N_samples_fatigue fatigue_start n_times = n_times := by
  have hnn : (0 : ℚ) ≤ fatigue_start * n_times :=
    mul_nonneg h0.le (by positivity)
  have hfl : N_samples_alert fatigue_start n_times = ⌊fatigue_start * n_times⌋ := by
    simp [N_samples_alert, pyInt, hnn]
  refine ⟨hfl, ?_, ?_, ?_⟩
  · rw [hfl]; exact Int.floor_nonneg.mpr hnn
  · rw [hfl]
    have hle : fatigue_start * n_times ≤ (n_times : ℚ) := by
      nlinarith [Nat.cast_nonneg (α := ℚ) n_times]
    calc ⌊fatigue_start * n_times⌋ ≤ ⌊(n_times : ℚ)⌋ := Int.floor_le_floor hle
      _ = n_times := Int.floor_natCast n_times
  · simp [N_samples_fatigue]

/-- Claim C8 witness: the amended statement at `fatigue_start = 1/2`,
`n_times = 3`. -/
theorem C8_fatigue_split_amended_witness :
    N_samples_alert (1/2) 3 = ⌊(1/2 : ℚ) * (3 : ℕ)⌋ ∧
    0 ≤ N_samples_alert (1/2) 3 ∧ N_samples_alert (1/2) 3 ≤ (3 : ℕ) ∧
    N_samples_alert (1/2) 3 + N_samples_fatigue (1/2) 3 = (3 : ℕ) :=
  C8_fatigue_split_amended (1/2) 3 (by norm_num) (by norm_num)

/-! ## C7: the fatigue power envelope -/

theorem list_getD_map {α β : Type} (f : α → β) :
    ∀ (l : List α) (i : ℕ) (da : α) (db : β), i < l.length →
      (l.map f).getD i db = f (l.getD i da)
  | [], i, _, _, h => absurd h (by simp)
  | x :: xs, 0, _, _, _ => rfl
  | x :: xs, i + 1, da, db, h => list_getD_map f xs i da db (by simpa using h)

theorem list_getD_zipWith {α β γ : Type} (f : α → β → γ) :
    ∀ (l₁ : List α) (l₂ : List β) (i : ℕ) (d₁ : α) (d₂ : β) (d₃ : γ),
      i < l₁.length → i < l₂.length →
      (List.zipWith f l₁ l₂).getD i d₃ = f (l₁.getD i d₁) (l₂.getD i d₂)
  | [], _, i, _, _, _, h1, _ => absurd h1 (by simp)
  | x :: xs, [], i, _, _, _, _, h2 => absurd h2 (by simp)
  | x :: xs, y :: ys, 0, _, _, _, _, _ => rfl
  | x :: xs, y :: ys, i + 1, d₁, d₂, d₃, h1, h2 =>
    list_getD_zipWith f xs ys i d₁ d₂ d₃ (by simpa using h1)
      (by simpa using h2)

theorem list_getD_range (n i : ℕ) (h : i < n) :
    (List.range n).getD i 0 = i := by
  rw [List.getD_eq_getElem _ _ (by simpa using h)]
  simp

theorem envelope_linear_getD (xs : List ℚ) (scale : ℚ) (i : ℕ)
    (hs : scale ≠ 1) (hN : 2 ≤ xs.length) (hi : i < xs.length) :
    (theta_activity xs ("linear") scale).getD i 0 =
      1 / 100000000 *
        (xs.getD i 0 * ((i : ℚ) / ((xs.length : ℚ) - 1) * scale)) := by
  have hn1 : xs.length ≠ 1 := by omega
  have hlin : (linspace 0 scale xs.length).length = xs.length := by
    rw [linspace, if_neg hn1, List.length_map, List.length_range]
  have hmlen : i < (List.zipWith (· * ·) xs
      (linspace 0 scale xs.length)).length := by
    rw [List.length_zipWith, hlin]
    omega
  rw [theta_activity]
  rw [if_pos hs, if_pos rfl]
  rw [list_getD_map _ _ _ 0 _ hmlen,
    list_getD_zipWith _ _ _ _ 0 0 0 hi (by omega)]
  rw [linspace, if_neg hn1, list_getD_map _ _ _ 0 _ (by simpa using hi),
    list_getD_range _ _ hi]
  ring

theorem envelope_constant_getD (xs : List ℚ) (scale : ℚ) (i : ℕ)
    (hs : scale ≠ 1) (hi : i < xs.length) :
    (theta_activity xs ("constant") scale).getD i 0 =
      1 / 100000000 * (xs.getD i 0 * scale) := by
  have hne : ("constant" : String) = "linear" → False := by decide
  rw [theta_activity]
  rw [if_pos hs, if_neg hne, if_pos rfl]
  rw [list_getD_map _ _ _ 0 _ (by simpa using hi),
    list_getD_map _ _ _ 0 _ hi]

/-- Claim C7 (corrected), counterexample: at `scale = 1` the code applies
no envelope at all (the scaling is guarded by `if scale != 1`), so with the
`linear` dynamic sample 0 is not multiplied by `0/(N-1)*scale = 0` as the
claim states for every scale: its value stays `1e-8 * 1 ≠ 0`. -/
theorem C7_envelope_counterexample :
    ¬ ((theta_activity [1, 1] ("linear") 1).getD 0 0 =
        1 / 100000000 * (([1, 1] : List ℚ).getD 0 0 *
          ((0 : ℕ) : ℚ) / ((([1, 1] : List ℚ).length : ℚ) - 1) * 1)) := by
  have h1 : ¬ ((1 : ℚ) ≠ 1) := by norm_num
  simp only [theta_activity, if_neg h1]
  norm_num

/-- Claim C7 (amended): for every `N_samples ≥ 2` and every `scale ≠ 1`
(at `scale = 1` the code skips the envelope entirely), in `theta_activity`
and `alpha_activity` the `linear` increase dynamic multiplies sample `i` of
the filtered activity by `i/(N_samples-1) * scale` and the `constant`
increase dynamic multiplies every sample uniformly by `scale`, before the
`1e-8` unit scaling. -/
theorem C7_envelope_amended (xs : List ℚ) (scale : ℚ) (i : ℕ)
    (hs : scale ≠ 1) (hN : 2 ≤ xs.length) (hi : i < xs.length) :
    (theta_activity xs ("linear") scale).getD i 0 =
      1 / 100000000 *
        (xs.getD i 0 * ((i : ℚ) / ((xs.length : ℚ) - 1) * scale)) ∧
    (theta_activity xs ("constant") scale).getD i 0 =
      1 / 100000000 * (xs.getD i 0 * scale) ∧
    (alpha_activity xs ("linear") scale).getD i 0 =
      1 / 100000000 *
        (xs.getD i 0 * ((i : ℚ) / ((xs.length : ℚ) - 1) * scale)) ∧
    (alpha_activity xs ("constant") scale).getD i 0 =
      1 / 100000000 * (xs.getD i 0 * scale) :=
  ⟨envelope_linear_getD xs scale i hs hN hi,
   envelope_constant_getD xs scale i hs hi,
   envelope_linear_getD xs scale i hs hN hi,
   envelope_constant_getD xs scale i hs hi⟩

/-- Claim C7 witness: the amended statement at `xs = [5, 7]`, `scale = 2`,
`i = 1`. -/
theorem C7_envelope_amended_witness :
    (theta_activity [5, 7] ("linear") 2).getD 1 0 =
      1 / 100000000 *
        (([5, 7] : List ℚ).getD 1 0 *
          ((1 : ℕ) : ℚ) / ((([5, 7] : List ℚ).length : ℚ) - 1) * 2) ∧
    (theta_activity [5, 7] ("constant") 2).getD 1 0 =
      1 / 100000000 * (([5, 7] : List ℚ).getD 1 0 * 2) := by
  have h := C7_envelope_amended [5, 7] 2 1 (by norm_num) (by norm_num)
    (by norm_num)
  refine ⟨?_, h.2.1⟩
  rw [h.1]
  ring

/-! ## C2: the failed-trial sub-vector class shift -/

/-- Claim C2 (code bug): with two declared tasks, events of classes
`0` (first task), `1` (second task) and `2` (baseline), and the
class-0 event marked bad, the code's sub-vector for the task at position 0
is taken from the class-1 rows, so the marked class-0 trial is never routed
to the no-modulation waveform; the position-1 task's sub-vector is even
taken from the baseline row.  The spec's sub-vector for position 0 picks up
the marked trial. -/
theorem C2_subvector_class_shift :
    bad_trials_vector_tmp [⟨0, 0, 0⟩, ⟨250, 0, 1⟩, ⟨500, 0, 2⟩]
      [true, false, false] 0 = [false] ∧
    bad_trials_vector_tmp [⟨0, 0, 0⟩, ⟨250, 0, 1⟩, ⟨500, 0, 2⟩]
      [true, false, false] 1 = [false] ∧
    bad_trials_vector_tmp_spec [⟨0, 0, 0⟩, ⟨250, 0, 1⟩, ⟨500, 0, 2⟩]
      [true, false, false] 0 = [true] := by
  decide

/-! ## C3: the bad-trials vector -/

theorem btv_foldl_length :
    ∀ (picks : List ℕ) (v : List Bool),
      (picks.foldl (fun w j => w.set j true) v).length = v.length
  | [], _ => rfl
  | p :: ps, v => by
    rw [List.foldl_cons, btv_foldl_length ps]
    simp

theorem btv_foldl_getD :
    ∀ (picks : List ℕ) (v : List Bool) (i : ℕ), i < v.length →
      ((picks.foldl (fun w j => w.set j true) v).getD i false = true ↔
        (v.getD i false = true ∨ i ∈ picks))
  | [], v, i, _ => by simp
  | p :: ps, v, i, h => by
    rw [List.foldl_cons,
      btv_foldl_getD ps (v.set p true) i (by simpa using h)]
    by_cases hpi : p = i
    · subst hpi
      rw [list_getD_set_self v p true false h]
      simp
    · rw [list_getD_set_ne v p i true false hpi]
      have hmem : (i ∈ p :: ps) ↔ (i ∈ ps) := by
        rw [List.mem_cons]
        constructor
        · rintro (h' | h')
          · exact absurd h'.symm hpi
          · exact h'
        · exact Or.inr
      rw [hmem]

theorem count_true_getD (l : List Bool) :
    l.count true =
      ((List.range l.length).filter (fun i => l.getD i false)).length := by
  induction l with
  | nil => rfl
  | cons x xs ih =>
    rw [List.count_cons, List.length_cons, List.range_succ_eq_map,
      List.filter_cons, List.filter_map]
    have hcomp : ((fun i => (x :: xs).getD i false) ∘ Nat.succ) =
        (fun i => xs.getD i false) := rfl
    rw [hcomp]
    cases x <;> simp [ih]

theorem bad_trials_vector_length (n : ℕ) (picks : List ℕ) :
    (bad_trials_vector n picks).length = n := by
  rw [bad_trials_vector, btv_foldl_length]
  simp

theorem bad_trials_vector_getD (n : ℕ) (picks : List ℕ) (i : ℕ)
    (h : i < n) :
    ((bad_trials_vector n picks).getD i false = true ↔ i ∈ picks) := by
  rw [bad_trials_vector, btv_foldl_getD _ _ _ (by simpa using h)]
  simp [list_getD_replicate]

theorem bad_trials_vector_count (n : ℕ) (picks : List ℕ)
    (hp : ∀ j ∈ picks, j < n) :
    (bad_trials_vector n picks).count true = picks.toFinset.card := by
  rw [count_true_getD, bad_trials_vector_length]
  have hcong : ∀ i ∈ List.range n,
      ((bad_trials_vector n picks).getD i false) = (decide (i ∈ picks)) := by
    intro i hi
    rw [List.mem_range] at hi
    have hiff := bad_trials_vector_getD n picks i hi
    by_cases hm : i ∈ picks
    · rw [hiff.mpr hm]
      simp [hm]
    · have hfalse : (bad_trials_vector n picks).getD i false = false := by
        cases hgd : (bad_trials_vector n picks).getD i false
        · rfl
        · exact absurd (hiff.mp hgd) hm
      rw [hfalse]
      simp [hm]
  rw [List.filter_congr hcong]
  have hnd : ((List.range n).filter (fun i => decide (i ∈ picks))).Nodup :=
    (List.nodup_range n).filter _
  rw [← List.toFinset_card_of_nodup hnd]
  congr 1
  ext x
  simp only [List.mem_toFinset, List.mem_filter, List.mem_range,
    decide_eq_true_eq]
  exact ⟨fun h => h.2, fun h => ⟨hp x h, h⟩⟩

theorem mem_MI_positions (events : List Ev) (j : ℕ) :
    j ∈ MI_positions events ↔ j < events.length ∧
      ((events.getD j zeroEv).cls = 0 ∨ (events.getD j zeroEv).cls = 1) := by
  simp [MI_positions, List.mem_filter, List.mem_range]

/-- Claim C3 (corrected), counterexample: with `p_failed = 3/10` and
`N_trials = 10` the code draws `int(1.5) = 1` positions, so any valid draw
marks one entry, not `round(1.5) = 2` as the claim's cardinality formula
requires. -/
theorem C3_cardinality_counterexample :
    (∀ j ∈ ([0] : List ℕ), j ∈ MI_positions [⟨0, 0, 0⟩, ⟨250, 0, 1⟩]) ∧
    ([0] : List ℕ).length = (pyInt ((3 : ℚ) / 10 * (10 : ℕ) / 2)).toNat ∧
    ¬ ((bad_trials_vector 2 [0]).count true =
        (pyRound ((3 : ℚ) / 10 * (10 : ℕ) / 2)).toNat) := by
  refine ⟨by decide, ?_, ?_⟩
  · have h1 : pyInt ((3 : ℚ) / 10 * (10 : ℕ) / 2) = 1 := by
      norm_num [pyInt]
    rw [h1]
    rfl
  · have h2 : pyRound ((3 : ℚ) / 10 * (10 : ℕ) / 2) = 2 := by
      norm_num [pyRound]
    rw [h2]
    decide

/-- Claim C3 (amended): the code draws `int(p_failed*N_trials/2)` (integer
truncation, not rounding) positions from the rows whose class id is 0 or 1,
with replacement, so the number of entries set to true is the number of
distinct drawn positions, which is at most `int(p_failed*N_trials/2)`; every
marked index is a row whose class id is 0 or 1 (exactly the motor-imagery
events when two tasks are declared). -/
theorem C3_bad_trials_amended (events : List Ev) (p_failed : ℚ)
    (N_trials : ℕ) (picks : List ℕ)
    (hpicks : ∀ j ∈ picks, j ∈ MI_positions events)
    (hlen : picks.length = (pyInt (p_failed * N_trials / 2)).toNat) :
    (bad_trials_vector events.length picks).count true =
      picks.toFinset.card ∧
    picks.toFinset.card ≤ (pyInt (p_failed * N_trials / 2)).toNat ∧
    ∀ i, (bad_trials_vector events.length picks).getD i false = true →
      (events.getD i zeroEv).cls = 0 ∨ (events.getD i zeroEv).cls = 1 := by
  have hb : ∀ j ∈ picks, j < events.length := fun j hj =>
    ((mem_MI_positions events j).mp (hpicks j hj)).1
  refine ⟨bad_trials_vector_count _ _ hb, ?_, ?_⟩
  · rw [← hlen]
    exact picks.toFinset_card_le
  · intro i hi
    by_cases hlt : i < events.length
    · have hm := (bad_trials_vector_getD _ _ _ hlt).mp hi
      exact ((mem_MI_positions events i).mp (hpicks i hm)).2
    · rw [List.getD_eq_default] at hi
      · exact absurd hi (by simp)
      · rw [bad_trials_vector_length]
        omega

/-- Claim C3 witness: the amended statement for four events (two
motor-imagery rows, one baseline row, one rest row), `p_failed = 2/5`,
`N_trials = 10` and the valid draw `[1, 0]`. -/
theorem C3_bad_trials_amended_witness :
    (bad_trials_vector 4 [1, 0]).count true =
      ([1, 0] : List ℕ).toFinset.card ∧
    ([1, 0] : List ℕ).toFinset.card ≤
      (pyInt ((2 : ℚ) / 5 * (10 : ℕ) / 2)).toNat := by
  have hlen : ([1, 0] : List ℕ).length =
      (pyInt ((2 : ℚ) / 5 * (10 : ℕ) / 2)).toNat := by
    have h2 : pyInt ((2 : ℚ) / 5 * (10 : ℕ) / 2) = 2 := by
      norm_num [pyInt]
    rw [h2]
    rfl
  have h := C3_bad_trials_amended
    [⟨0, 0, 0⟩, ⟨250, 0, 1⟩, ⟨500, 0, 2⟩, ⟨750, 0, 3⟩]
    ((2 : ℚ) / 5) 10 [1, 0] (by decide) hlen
  exact ⟨h.1, h.2.1⟩

/-! ## C4: the event-array row count -/

theorem whenLoop_length (durations : List ℚ) (sfreq : ℚ) (r : Bool)
    (rd : ℚ) :
    ∀ (perm : List ℕ) (events : List Ev) (cnt : ℕ) (t : ℤ),
      (whenLoop durations sfreq r rd perm events cnt t).length =
        events.length
  | [], _, _, _ => rfl
  | eid :: tl, events, cnt, t => by
    rw [whenLoop]
    cases r
    · rw [if_neg (by simp)]
      rw [whenLoop_length durations sfreq false rd tl]
      simp
    · rw [if_pos rfl]
      rw [whenLoop_length durations sfreq true rd tl]
      simp

/-- Claim C4 (confirmed): the events array returned by `generate_when` has
exactly `N_trials + (1 if include_baseline else 0) +
(N_trials if include_rest else 0)` rows, for every input (the row count is
fixed by the pre-allocation of lines 318-327, which the writing loop never
extends). -/
theorem C4_event_count (durations : List ℚ) (N_trials : ℕ) (sfreq : ℚ)
    (perm : List ℕ) (include_rest : Bool) (rest_duration : ℚ)
    (include_baseline : Bool) (baseline_duration : ℚ) :
    (generate_when durations N_trials sfreq perm include_rest rest_duration
        include_baseline baseline_duration).length =
      N_trials + (if include_baseline then 1 else 0) +
        (if include_rest then N_trials else 0) := by
  rw [generate_when]
  cases include_baseline <;> cases include_rest <;>
    simp [whenLoop_length] <;> omega

/-! ## The `generate_when` write-loop decomposition -/

theorem list_set_len_add {α : Type} :
    ∀ (l₁ l₂ : List α) (n : ℕ) (a : α),
      (l₁ ++ l₂).set (l₁.length + n) a = l₁ ++ l₂.set n a
  | [], _, _, _ => by simp
  | x :: xs, l₂, n, a => by
    simpa [Nat.succ_add] using list_set_len_add xs l₂ n a

theorem whenLoop_eq_false (durations : List ℚ) (sfreq : ℚ) (rd : ℚ) :
    ∀ (perm : List ℕ) (events : List Ev) (cnt : ℕ) (t : ℤ),
      cnt + perm.length ≤ events.length →
      whenLoop durations sfreq false rd perm events cnt t =
        events.take cnt ++ builtList durations sfreq false rd perm t ++
          events.drop (cnt + perm.length)
  | [], events, cnt, t, _ => by
    simp [whenLoop, builtList]
  | eid :: tl, events, cnt, t, h => by
    have hlen : (eid :: tl).length = tl.length + 1 := rfl
    rw [hlen] at h ⊢
    have hcnt : cnt < events.length := by omega
    have htklen : (events.take cnt).length = cnt := by
      rw [List.length_take]
      omega
    simp only [whenLoop, if_neg (show ¬ ((false : Bool) = true) by simp)]
    rw [whenLoop_eq_false durations sfreq rd tl _ (cnt + 1) _ (by
      rw [List.length_set]
      omega)]
    have e1 : events.set cnt ⟨t, 0, (eid : ℤ)⟩ =
        events.take cnt ++ ⟨t, 0, (eid : ℤ)⟩ :: events.drop (cnt + 1) :=
      list_set_decomp events cnt hcnt _
    rw [e1]
    have htake : (events.take cnt ++ ⟨t, 0, (eid : ℤ)⟩ ::
          events.drop (cnt + 1)).take (cnt + 1) =
        events.take cnt ++ [⟨t, 0, (eid : ℤ)⟩] := by
      rw [show cnt + 1 = (events.take cnt).length + 1 by omega,
        list_take_len_add]
      rfl
    have hdrop : (events.take cnt ++ ⟨t, 0, (eid : ℤ)⟩ ::
          events.drop (cnt + 1)).drop (cnt + 1 + tl.length) =
        events.drop (cnt + (tl.length + 1)) := by
      rw [show cnt + 1 + tl.length = (events.take cnt).length + (tl.length + 1)
          by omega, list_drop_len_add, List.drop_succ_cons, List.drop_drop]
      congr 1
      omega
    rw [htake, hdrop]
    simp only [builtList, if_neg (show ¬ ((false : Bool) = true) by simp)]
    simp [List.append_assoc]

theorem list_set_two {α : Type} :
    ∀ (l : List α) (cnt : ℕ), cnt + 1 < l.length → ∀ (a b : α),
      (l.set cnt a).set (cnt + 1) b = l.take cnt ++ a :: b :: l.drop (cnt + 2)
  | [], _, h, _, _ => absurd h (by simp)
  | x :: xs, 0, h, a, b => by
    cases xs with
    | nil => simp at h
    | cons y ys => simp
  | x :: xs, cnt + 1, h, a, b => by
    have hrec := list_set_two xs cnt (by simpa using h) a b
    simp only [List.set, List.take, List.drop, List.cons_append]
    rw [hrec]

theorem whenLoop_eq_true (durations : List ℚ) (sfreq : ℚ) (rd : ℚ) :
    ∀ (perm : List ℕ) (events : List Ev) (cnt : ℕ) (t : ℤ),
      cnt + 2 * perm.length ≤ events.length →
      whenLoop durations sfreq true rd perm events cnt t =
        events.take cnt ++ builtList durations sfreq true rd perm t ++
          events.drop (cnt + 2 * perm.length)
  | [], events, cnt, t, _ => by
    simp [whenLoop, builtList]
  | eid :: tl, events, cnt, t, h => by
    have hlen : (eid :: tl).length = tl.length + 1 := rfl
    rw [hlen] at h ⊢
    have hcnt1 : cnt + 1 < events.length := by omega
    have htklen : (events.take cnt).length = cnt := by
      rw [List.length_take]
      omega
    simp only [whenLoop, if_pos rfl]
    rw [whenLoop_eq_true durations sfreq rd tl _ (cnt + 2) _ (by
      rw [List.length_set, List.length_set]
      omega)]
    rw [list_set_two events cnt hcnt1 _ _]
    have htake : (events.take cnt ++ ⟨t, 0, (eid : ℤ)⟩ ::
          ⟨t + pyRound (durations.getD eid 0 / 1000 * sfreq), 0,
            (durations.length : ℤ) + 1⟩ :: events.drop (cnt + 2)).take (cnt + 2) =
        events.take cnt ++ [⟨t, 0, (eid : ℤ)⟩,
          ⟨t + pyRound (durations.getD eid 0 / 1000 * sfreq), 0,
            (durations.length : ℤ) + 1⟩] := by
      rw [show cnt + 2 = (events.take cnt).length + 2 by omega,
        list_take_len_add]
      rfl
    have hdrop : (events.take cnt ++ ⟨t, 0, (eid : ℤ)⟩ ::
          ⟨t + pyRound (durations.getD eid 0 / 1000 * sfreq), 0,
            (durations.length : ℤ) + 1⟩ :: events.drop (cnt + 2)).drop
            (cnt + 2 + 2 * tl.length) =
        events.drop (cnt + 2 * (tl.length + 1)) := by
      rw [show cnt + 2 + 2 * tl.length =
          (events.take cnt).length + (2 * tl.length + 1 + 1) by omega,
        list_drop_len_add, List.drop_succ_cons, List.drop_succ_cons,
        List.drop_drop]
      congr 1
      omega
    rw [htake, hdrop]
    simp only [builtList, if_pos rfl]
    simp [List.append_assoc]

theorem list_drop_replicate {α : Type} :
    ∀ (n m : ℕ) (a : α), (List.replicate n a).drop m = List.replicate (n - m) a
  | n, 0, a => by simp
  | 0, m + 1, a => by simp
  | n + 1, m + 1, a => by
    simpa [List.replicate_succ] using list_drop_replicate n m a

theorem generate_when_decomp (durations : List ℚ) (N_trials : ℕ)
    (sfreq : ℚ) (perm : List ℕ) (r : Bool) (rd : ℚ) (b : Bool) (bd : ℚ)
    (hle : perm.length ≤ N_trials) :
    generate_when durations N_trials sfreq perm r rd b bd =
      (if b then [⟨0, 0, (durations.length : ℤ)⟩] else []) ++
      builtList durations sfreq r rd perm
        (if b then pyRound (bd / 1000 * sfreq) else 0) ++
      List.replicate ((N_trials - perm.length) * (if r then 2 else 1))
        zeroEv := by
  cases b with
  | false =>
    cases r with
    | false =>
      simp only [generate_when,
        if_neg (show ¬ ((false : Bool) = true) by simp)]
      rw [whenLoop_eq_false durations sfreq rd perm _ 0 0 (by
        simp only [List.length_replicate]
        omega)]
      simp [list_drop_replicate]
    | true =>
      simp only [generate_when, eq_self_iff_true, if_true,
        if_neg (show ¬ ((false : Bool) = true) by simp)]
      rw [whenLoop_eq_true durations sfreq rd perm _ 0 0 (by
        simp only [List.length_replicate]
        omega)]
      rw [show (N_trials - perm.length) * 2 =
        2 * N_trials - (0 + 2 * perm.length) by omega]
      simp [list_drop_replicate]
  | true =>
    cases r with
    | false =>
      simp only [generate_when, eq_self_iff_true, if_true,
        if_neg (show ¬ ((false : Bool) = true) by simp)]
      have hset : (List.replicate (N_trials + 1) zeroEv).set 0
            ⟨0, 0, (durations.length : ℤ)⟩ =
          ⟨0, 0, (durations.length : ℤ)⟩ :: List.replicate N_trials zeroEv := by
        rw [list_set_decomp _ 0 (by simp) _]
        simp [list_drop_replicate]
      rw [hset]
      rw [whenLoop_eq_false durations sfreq rd perm _ 1 _ (by
        simp only [List.length_cons, List.length_replicate]
        omega)]
      rw [show 1 + perm.length = perm.length + 1 by omega]
      rw [List.drop_succ_cons]
      simp [list_drop_replicate]
    | true =>
      simp only [generate_when, eq_self_iff_true, if_true]
      have hset : (List.replicate (2 * N_trials + 1) zeroEv).set 0
            ⟨0, 0, (durations.length : ℤ)⟩ =
          ⟨0, 0, (durations.length : ℤ)⟩ ::
            List.replicate (2 * N_trials) zeroEv := by
        rw [list_set_decomp _ 0 (by simp) _]
        simp [list_drop_replicate]
      rw [hset]
      rw [whenLoop_eq_true durations sfreq rd perm _ 1 _ (by
        simp only [List.length_cons, List.length_replicate]
        omega)]
      rw [show 1 + 2 * perm.length = 2 * perm.length + 1 by omega]
      rw [List.drop_succ_cons]
      rw [show (N_trials - perm.length) * 2 =
        2 * N_trials - 2 * perm.length by omega]
      simp [list_drop_replicate]

/-! ## C5: strictly increasing onsets -/

theorem dropLast_cons_scanl (a b : ℤ) (l : List ℤ) :
    (a :: List.scanl (· + ·) b l).dropLast =
      a :: (List.scanl (· + ·) b l).dropLast := by
  cases l <;> simp [List.scanl, List.dropLast]

theorem builtList_map_onset (durations : List ℚ) (sfreq : ℚ) (r : Bool)
    (rd : ℚ) :
    ∀ (perm : List ℕ) (t : ℤ),
      (builtList durations sfreq r rd perm t).map Ev.onset =
        (List.scanl (· + ·) t
          (segDurs durations sfreq r rd perm)).dropLast
  | [], t => by simp [builtList, segDurs, List.scanl]
  | eid :: tl, t => by
    cases r with
    | false =>
      simp only [builtList, segDurs,
        if_neg (show ¬ ((false : Bool) = true) by simp)]
      rw [List.map_cons, builtList_map_onset durations sfreq false rd tl]
      rw [List.scanl_cons, List.singleton_append, dropLast_cons_scanl]
    | true =>
      simp only [builtList, segDurs, eq_self_iff_true, if_true]
      rw [List.map_cons, List.map_cons,
        builtList_map_onset durations sfreq true rd tl]
      rw [List.scanl_cons, List.scanl_cons, List.singleton_append,
        List.singleton_append, List.dropLast_cons₂, dropLast_cons_scanl]

theorem chain_scanl :
    ∀ (ds : List ℤ) (t : ℤ), (∀ d ∈ ds, 0 < d) →
      List.Chain' (· < ·) (List.scanl (· + ·) t ds)
  | [], t, _ => by simp [List.scanl]
  | d :: ds, t, h => by
    rw [List.scanl_cons]
    rw [show ([t] ++ List.scanl (· + ·) (t + d) ds) =
      t :: List.scanl (· + ·) (t + d) ds by simp]
    rw [List.chain'_cons']
    constructor
    · intro x hx
      have hxe : x = t + d := by
        cases ds <;> simp [List.scanl] at hx <;> omega
      have hd : 0 < d := h d (by simp)
      omega
    · exact chain_scanl ds (t + d) (fun e he => h e (by simp [he]))

theorem repeatList_length (l : List ℕ) :
    ∀ k, (repeatList l k).length = k * l.length
  | 0 => by simp [repeatList]
  | k + 1 => by
    simp only [repeatList, List.length_append, repeatList_length l k]
    ring

theorem trials_ID_length (Nc N : ℕ) :
    (trials_ID Nc N).length = (N / Nc) * Nc := by
  simp [trials_ID, repeatList_length]

theorem perm_length_of_dvd (Nc N : ℕ) (perm : List ℕ)
    (hperm : perm.Perm (trials_ID Nc N)) (hdvd : Nc ∣ N) :
    perm.length = N := by
  rw [hperm.length_eq, trials_ID_length]
  exact Nat.div_mul_cancel hdvd

/-- Claim C5 (amended): for every valid configuration in which `N_trials`
is a multiple of the number of classes (so the pre-allocated array is
exactly filled) and every segment's duration rounds to a positive number of
samples, the onsets of the returned events are exactly the running partial
sums of the independently rounded segment durations, and they are strictly
increasing. -/
theorem C5_onsets_amended (durations : List ℚ) (N_trials : ℕ) (sfreq : ℚ)
    (perm : List ℕ) (include_rest : Bool) (rest_duration : ℚ)
    (include_baseline : Bool) (baseline_duration : ℚ)
    (hperm : perm.Perm (trials_ID durations.length N_trials))
    (hdiv : durations.length ∣ N_trials)
    (hpos : ∀ d ∈ allSegDurs durations sfreq include_rest rest_duration
      include_baseline baseline_duration perm, 0 < d) :
    (generate_when durations N_trials sfreq perm include_rest rest_duration
        include_baseline baseline_duration).map Ev.onset =
      (List.scanl (· + ·) 0 (allSegDurs durations sfreq include_rest
        rest_duration include_baseline baseline_duration perm)).dropLast ∧
    List.Chain' (· < ·)
      ((generate_when durations N_trials sfreq perm include_rest
        rest_duration include_baseline baseline_duration).map Ev.onset) := by
  have hlen : perm.length = N_trials :=
    perm_length_of_dvd durations.length N_trials perm hperm hdiv
  have hdecomp := generate_when_decomp durations N_trials sfreq perm
    include_rest rest_duration include_baseline baseline_duration
    (le_of_eq hlen)
  rw [hlen, Nat.sub_self, Nat.zero_mul, List.replicate_zero,
    List.append_nil] at hdecomp
  have heq : (generate_when durations N_trials sfreq perm include_rest
      rest_duration include_baseline baseline_duration).map Ev.onset =
      (List.scanl (· + ·) 0 (allSegDurs durations sfreq include_rest
        rest_duration include_baseline baseline_duration perm)).dropLast := by
    rw [hdecomp, allSegDurs]
    cases include_baseline with
    | false =>
      simp only [if_neg (show ¬ ((false : Bool) = true) by simp),
        List.nil_append]
      exact builtList_map_onset durations sfreq include_rest rest_duration
        perm 0
    | true =>
      simp only [eq_self_iff_true, if_true, List.singleton_append,
        List.map_cons]
      rw [builtList_map_onset durations sfreq include_rest rest_duration
        perm _]
      rw [List.scanl_cons, show ((0 : ℤ) + pyRound (baseline_duration /
        1000 * sfreq)) = pyRound (baseline_duration / 1000 * sfreq)
        by omega]
      rw [show ([(0 : ℤ)] ++ List.scanl (· + ·)
        (pyRound (baseline_duration / 1000 * sfreq))
        (segDurs durations sfreq include_rest rest_duration perm)) =
        (0 : ℤ) :: List.scanl (· + ·)
        (pyRound (baseline_duration / 1000 * sfreq))
        (segDurs durations sfreq include_rest rest_duration perm) by simp]
      rw [dropLast_cons_scanl]
  refine ⟨heq, ?_⟩
  rw [heq]
  exact (chain_scanl _ 0 hpos).sublist (List.dropLast_sublist _)

/-- Claim C5 (corrected), counterexample: all configured durations are
positive (1 ms trials, no rest, no baseline), yet with `sfreq = 250` the
trial duration rounds to `round(0.25) = 0` samples, so consecutive onsets
coincide and the onset sequence of the returned events is not strictly
increasing. -/
theorem C5_onsets_counterexample :
    (∀ q ∈ [(1 : ℚ)], 0 < q) ∧ trials_ID 1 2 = [0, 0] ∧ (1 : ℕ) ∣ 2 ∧
    ¬ List.Chain' (· < ·)
      ((generate_when [(1 : ℚ)] 2 250 [0, 0] false 2000 false
        5000).map Ev.onset) := by
  refine ⟨by norm_num, by decide, by decide, ?_⟩
  have hget : ([(1 : ℚ)].getD 0 0) = 1 := rfl
  have hd : pyRound ((1 : ℚ) / 1000 * 250) = 0 := by norm_num [pyRound]
  have hdecomp := generate_when_decomp [(1 : ℚ)] 2 250 [0, 0] false 2000
    false 5000 (by simp)
  rw [hdecomp]
  simp only [builtList, hget, hd,
    if_neg (show ¬ ((false : Bool) = true) by simp)]
  simp [List.chain'_cons]

/-- Claim C5 witness: the amended statement at two classes of durations
1000 ms and 2000 ms, `N_trials = 2`, `sfreq = 250`, with baseline
(5000 ms) and rest (2000 ms) segments: onsets are the partial sums
`[0, 1250, 1500, 2000, 2500]` and strictly increase. -/
theorem C5_onsets_amended_witness :
    List.Chain' (· < ·)
      ((generate_when [(1000 : ℚ), 2000] 2 250 [0, 1] true 2000 true
        5000).map Ev.onset) := by
  refine (C5_onsets_amended [(1000 : ℚ), 2000] 2 250 [0, 1] true 2000 true
    5000 (by decide) (by decide) ?_).2
  intro d hd
  have e1 : ([(1000 : ℚ), 2000].getD 0 0) = 1000 := rfl
  have e2 : ([(1000 : ℚ), 2000].getD 1 0) = 2000 := rfl
  simp only [allSegDurs, segDurs, e1, e2, eq_self_iff_true, if_true,
    List.mem_append, List.mem_cons, List.mem_singleton,
    List.not_mem_nil, or_false] at hd
  rcases hd with h | h | h | h | h <;> rw [h] <;> norm_num [pyRound]

/-! ## C6: balanced class counts -/

theorem count_range_nat : ∀ (n c : ℕ),
    (List.range n).count c = if c < n then 1 else 0
  | 0, c => by simp
  | n + 1, c => by
    rw [List.range_succ, List.count_append, count_range_nat n c]
    simp only [List.count_cons, List.count_nil, beq_iff_eq]
    by_cases h1 : c < n
    · have h2 : ¬ (n = c) := by omega
      rw [if_pos h1, if_pos (by omega : c < n + 1), if_neg h2]
    · by_cases h3 : c = n
      · subst h3
        rw [if_neg h1, if_pos (by omega : c < c + 1), if_pos rfl]
      · rw [if_neg h1, if_neg (by omega : ¬ c < n + 1),
          if_neg (fun h => h3 h.symm)]

theorem count_repeatList (l : List ℕ) (c : ℕ) :
    ∀ k, (repeatList l k).count c = k * l.count c
  | 0 => by simp [repeatList]
  | k + 1 => by
    rw [repeatList, List.count_append, count_repeatList l c k]
    ring

theorem count_trials_ID (Nc N c : ℕ) (hc : c < Nc) :
    (trials_ID Nc N).count c = N / Nc := by
  rw [trials_ID, count_repeatList, count_range_nat, if_pos hc, mul_one]

theorem builtList_count (durations : List ℚ) (sfreq : ℚ) (r : Bool)
    (rd : ℚ) (c : ℕ) (hc : c < durations.length) :
    ∀ (perm : List ℕ) (t : ℤ),
      ((builtList durations sfreq r rd perm t).filter
        (fun e => e.cls = (c : ℤ))).length = perm.count c
  | [], t => by simp [builtList]
  | eid :: tl, t => by
    have hrest : ¬ (((durations.length : ℤ) + 1) = (c : ℤ)) := by
      have : (c : ℤ) < (durations.length : ℤ) := by exact_mod_cast hc
      omega
    have hcnt : (eid :: tl).count c =
        tl.count c + if eid = c then 1 else 0 := by
      simp [List.count_cons]
    cases r with
    | false =>
      simp only [builtList,
        if_neg (show ¬ ((false : Bool) = true) by simp)]
      rw [List.filter_cons, hcnt]
      by_cases he : eid = c
      · subst he
        simp [builtList_count durations sfreq false rd eid hc tl]
      · have hne : ¬ (((eid : ℕ) : ℤ) = (c : ℤ)) := by
          exact_mod_cast he
        simp [hne, builtList_count durations sfreq false rd c hc tl, he]
    | true =>
      simp only [builtList, eq_self_iff_true, if_true]
      rw [List.filter_cons, List.filter_cons, hcnt]
      by_cases he : eid = c
      · subst he
        simp [hrest, builtList_count durations sfreq true rd eid hc tl]
      · have hne : ¬ (((eid : ℕ) : ℤ) = (c : ℤ)) := by
          exact_mod_cast he
        simp [hne, hrest,
          builtList_count durations sfreq true rd c hc tl, he]

/-- Claim C6 (confirmed): when `N_trials` is a multiple of the number of
classes, the returned timeline contains exactly `N_trials / N_classes`
events of each task class id `c < N_classes`, for every permutation of the
balanced class-id sequence: the permutation only reorders the class ids. -/
theorem C6_balanced_counts (durations : List ℚ) (N_trials : ℕ) (sfreq : ℚ)
    (perm : List ℕ) (include_rest : Bool) (rest_duration : ℚ)
    (include_baseline : Bool) (baseline_duration : ℚ) (c : ℕ)
    (hperm : perm.Perm (trials_ID durations.length N_trials))
    (hdiv : durations.length ∣ N_trials) (hc : c < durations.length) :
    ((generate_when durations N_trials sfreq perm include_rest
        rest_duration include_baseline baseline_duration).filter
      (fun e => e.cls = (c : ℤ))).length = N_trials / durations.length := by
  have hlen : perm.length = N_trials :=
    perm_length_of_dvd durations.length N_trials perm hperm hdiv
  have hdecomp := generate_when_decomp durations N_trials sfreq perm
    include_rest rest_duration include_baseline baseline_duration
    (le_of_eq hlen)
  rw [hlen, Nat.sub_self, Nat.zero_mul, List.replicate_zero,
    List.append_nil] at hdecomp
  rw [hdecomp, List.filter_append, List.length_append]
  have hbase : (((if include_baseline then
        [⟨0, 0, (durations.length : ℤ)⟩] else []) : List Ev).filter
      (fun e => e.cls = (c : ℤ))).length = 0 := by
    cases include_baseline with
    | false => simp
    | true =>
      have hne : ¬ ((durations.length : ℤ) = (c : ℤ)) := by
        have : (c : ℤ) < (durations.length : ℤ) := by exact_mod_cast hc
        omega
      simp [List.filter_cons, hne]
  rw [hbase, builtList_count durations sfreq include_rest rest_duration c
    hc perm _, hperm.count_eq, count_trials_ID _ _ _ hc]
  omega

/-- Claim C6 witness: two classes, `N_trials = 4`, the shuffled
permutation `[1, 0, 0, 1]` of the balanced sequence `[0, 1, 0, 1]`:
exactly `4 / 2 = 2` events carry class id 0. -/
theorem C6_balanced_counts_witness :
    ((generate_when [(1000 : ℚ), 2000] 4 250 [1, 0, 0, 1] false 2000
        false 5000).filter
      (fun e => e.cls = ((0 : ℕ) : ℤ))).length = 2 :=
  C6_balanced_counts [(1000 : ℚ), 2000] 4 250 [1, 0, 0, 1] false 2000
    false 5000 0 (by decide) (by decide) (by decide)

/-! ## C10: non-divisible trial counts leave zero-filled rows -/

theorem not_chain_of_zero_ends (l tl : List ℤ) (hform : l = 0 :: tl)
    (hx : (0 : ℤ) ∈ tl) : ¬ List.Chain' (· < ·) l := by
  subst hform
  intro hc
  rw [List.chain'_iff_pairwise] at hc
  exact lt_irrefl 0 (List.rel_of_pairwise_cons hc hx)

/-- Claim C10 (amended): when `N_trials` is not a multiple of
`N_classes`, the loop writes only `N_classes * (N_trials // N_classes)`
trial events (that is `perm.length` trial rows, each with its optional
rest row), the remaining `(N_trials % N_classes) * (2 if rest else 1)`
pre-allocated rows stay zero-filled, and — provided the array has at least
two rows, i.e. `N_trials ≥ 2` or a baseline or rest flag is set — the
returned onsets are not strictly increasing.  (For a one-row array the
spurious zero row is the whole output and its single onset is vacuously
increasing.) -/
theorem C10_truncation_amended (durations : List ℚ) (N_trials : ℕ)
    (sfreq : ℚ) (perm : List ℕ) (include_rest : Bool) (rest_duration : ℚ)
    (include_baseline : Bool) (baseline_duration : ℚ)
    (hperm : perm.Perm (trials_ID durations.length N_trials))
    (hndiv : ¬ durations.length ∣ N_trials)
    (hrows : 2 ≤ N_trials ∨ include_baseline = true ∨ include_rest = true) :
    perm.length = durations.length * (N_trials / durations.length) ∧
    generate_when durations N_trials sfreq perm include_rest rest_duration
        include_baseline baseline_duration =
      (if include_baseline then [⟨0, 0, (durations.length : ℤ)⟩] else []) ++
      builtList durations sfreq include_rest rest_duration perm
        (if include_baseline then
          pyRound (baseline_duration / 1000 * sfreq) else 0) ++
      List.replicate ((N_trials % durations.length) *
        (if include_rest then 2 else 1)) zeroEv ∧
    1 ≤ (N_trials % durations.length) * (if include_rest then 2 else 1) ∧
    ¬ List.Chain' (· < ·)
      ((generate_when durations N_trials sfreq perm include_rest
        rest_duration include_baseline baseline_duration).map Ev.onset) := by
  have hdm := Nat.div_add_mod N_trials durations.length
  have hmodne : N_trials % durations.length ≠ 0 := by
    intro h0
    exact hndiv (Nat.dvd_of_mod_eq_zero h0)
  have hlen : perm.length = durations.length *
      (N_trials / durations.length) := by
    rw [hperm.length_eq, trials_ID_length, Nat.mul_comm]
  have hle : perm.length ≤ N_trials := by omega
  have hsub : N_trials - perm.length = N_trials % durations.length := by
    omega
  have hdecomp := generate_when_decomp durations N_trials sfreq perm
    include_rest rest_duration include_baseline baseline_duration hle
  rw [hsub] at hdecomp
  have hk1 : 1 ≤ (N_trials % durations.length) *
      (if include_rest then 2 else 1) := by
    cases include_rest <;> simp <;> omega
  refine ⟨hlen, hdecomp, hk1, ?_⟩
  rw [hdecomp, List.map_append, List.map_append, List.map_replicate,
    show Ev.onset zeroEv = 0 from rfl]
  cases include_baseline with
  | true =>
    simp only [eq_self_iff_true, if_true, List.map_cons, List.map_nil,
      List.singleton_append]
    refine not_chain_of_zero_ends _ _ rfl ?_
    refine List.mem_append.mpr (Or.inr ?_)
    exact List.mem_replicate.mpr ⟨by omega, rfl⟩
  | false =>
    simp only [if_neg (show ¬ ((false : Bool) = true) by simp),
      List.map_nil, List.nil_append]
    cases perm with
    | nil =>
      simp only [List.length_nil] at hlen hle hsub
      have hmodeq : N_trials % durations.length = N_trials := by omega
      have hN2 : 2 ≤ (N_trials % durations.length) *
          (if include_rest then 2 else 1) := by
        rcases hrows with h2 | hb | hr
        · cases include_rest <;> simp <;> omega
        · exact absurd hb (by simp)
        · rw [hr]
          simp only [eq_self_iff_true, if_true]
          omega
      simp only [builtList, List.map_nil, List.nil_append]
      rw [show ((N_trials % durations.length) *
        (if include_rest then 2 else 1)) =
        ((N_trials % durations.length) *
          (if include_rest then 2 else 1) - 1) + 1 by omega,
        List.replicate_succ]
      refine not_chain_of_zero_ends _ _ rfl ?_
      exact List.mem_replicate.mpr ⟨by omega, rfl⟩
    | cons p tl =>
      cases include_rest with
      | false =>
        simp only [builtList,
          if_neg (show ¬ ((false : Bool) = true) by simp), List.map_cons]
        refine not_chain_of_zero_ends _ _ rfl ?_
        refine List.mem_append.mpr (Or.inr ?_)
        exact List.mem_replicate.mpr ⟨by omega, rfl⟩
      | true =>
        simp only [builtList, eq_self_iff_true, if_true, List.map_cons]
        refine not_chain_of_zero_ends _ _ rfl ?_
        refine List.mem_cons.mpr (Or.inr ?_)
        refine List.mem_append.mpr (Or.inr ?_)
        exact List.mem_replicate.mpr ⟨by omega, rfl⟩

/-- Claim C10 (corrected), counterexample: `N_trials = 1` with two classes
(not divisible) and no baseline or rest rows: the single pre-allocated row
stays zero-filled — consistent with the claim's truncation part — but the
one-element onset sequence is vacuously strictly increasing, contradicting
the claim's "its onsets are not increasing". -/
theorem C10_truncation_counterexample :
    ¬ ((2 : ℕ) ∣ 1) ∧ trials_ID 2 1 = [] ∧
    generate_when [(1000 : ℚ), 2000] 1 250 [] false 2000 false 5000 =
      [zeroEv] ∧
    List.Chain' (· < ·)
      ((generate_when [(1000 : ℚ), 2000] 1 250 [] false 2000 false
        5000).map Ev.onset) := by
  have hdecomp := generate_when_decomp [(1000 : ℚ), 2000] 1 250 []
    false 2000 false 5000 (by simp)
  have hres : generate_when [(1000 : ℚ), 2000] 1 250 [] false 2000 false
      5000 = [zeroEv] := by
    rw [hdecomp]
    simp [builtList]
  refine ⟨by decide, by decide, hres, ?_⟩
  rw [hres]
  simp

/-- Claim C10 witness: the amended statement at `N_trials = 3`, two
classes, no baseline, no rest, with the permutation `[1, 0]` of the
balanced sequence `[0, 1]`: one trailing zero row remains and the onsets
are not strictly increasing. -/
theorem C10_truncation_amended_witness :
    ¬ List.Chain' (· < ·)
      ((generate_when [(1000 : ℚ), 2000] 3 250 [1, 0] false 2000 false
        5000).map Ev.onset) :=
  (C10_truncation_amended [(1000 : ℚ), 2000] 3 250 [1, 0] false 2000
    false 5000 (by decide) (by decide) (Or.inl (by omega))).2.2.2

/-! ## C1 and C9: the peak-parameter store -/

theorem alloc_fst (s : Store) (v : List ℚ) : (alloc s v).1 = s.next := rfl

theorem alloc_next (s : Store) (v : List ℚ) :
    (alloc s v).2.next = s.next + 1 := rfl

theorem alloc_mem (s : Store) (v : List ℚ) (x : ℕ) :
    (alloc s v).2.mem x = if x = s.next then v else s.mem x := rfl

theorem writeIdx1_next (s : Store) (a : ℕ) (v : ℚ) :
    (writeIdx1 s a v).next = s.next := rfl

theorem writeIdx1_mem (s : Store) (a : ℕ) (v : ℚ) (x : ℕ) :
    (writeIdx1 s a v).mem x =
      if x = a then (s.mem a).set 1 v else s.mem x := rfl

theorem lookup'_mem {α : Type} :
    ∀ (l : List (String × α)) (k : String) (v : α),
      lookup' k l = some v → (k, v) ∈ l
  | [], _, _, h => by simp [lookup'] at h
  | (k0, v0) :: rest, k, v, h => by
    by_cases hk : k0 = k
    · rw [lookup', if_pos hk] at h
      cases h
      subst hk
      exact List.mem_cons_self _ _
    · rw [lookup', if_neg hk] at h
      exact List.mem_cons_of_mem _ (lookup'_mem rest k v h)

theorem copyTasks_next (ba : ℕ) :
    ∀ (ts : List String) (s : Store),
      (copyTasks ba ts s).2.next = s.next + ts.length
  | [], s => rfl
  | t :: ts, s => by
    simp only [copyTasks]
    rw [copyTasks_next ba ts, alloc_next]
    simp only [List.length_cons]
    omega

theorem copyTasks_mem_lo (ba : ℕ) :
    ∀ (ts : List String) (s : Store) (x : ℕ), x < s.next →
      (copyTasks ba ts s).2.mem x = s.mem x
  | [], _, _, _ => rfl
  | t :: ts, s, x, hx => by
    simp only [copyTasks]
    rw [copyTasks_mem_lo ba ts _ x (by rw [alloc_next]; omega), alloc_mem,
      if_neg (by omega : ¬ x = s.next)]

theorem copyTasks_lookup_range (ba : ℕ) :
    ∀ (ts : List String) (s : Store) (t : String) (a : ℕ),
      lookup' t (copyTasks ba ts s).1 = some a →
      s.next ≤ a ∧ a < s.next + ts.length
  | [], s, t, a => by simp [copyTasks, lookup']
  | t0 :: ts, s, t, a => by
    simp only [copyTasks, lookup', alloc_fst, List.length_cons]
    by_cases h : t0 = t
    · rw [if_pos h]
      intro ha
      cases ha
      omega
    · rw [if_neg h]
      intro ha
      have hr := copyTasks_lookup_range ba ts _ t a ha
      rw [alloc_next] at hr
      omega

theorem copyTasks_lookup_val (ba : ℕ) :
    ∀ (ts : List String) (s : Store) (t : String) (a : ℕ), ba < s.next →
      lookup' t (copyTasks ba ts s).1 = some a →
      (copyTasks ba ts s).2.mem a = s.mem ba
  | [], s, t, a, _, h => by simp [copyTasks, lookup'] at h
  | t0 :: ts, s, t, a, hba, h => by
    simp only [copyTasks, lookup', alloc_fst] at h ⊢
    by_cases ht : t0 = t
    · rw [if_pos ht] at h
      cases h
      rw [copyTasks_mem_lo ba ts _ s.next (by rw [alloc_next]; omega),
        alloc_mem, if_pos rfl]
    · rw [if_neg ht] at h
      rw [copyTasks_lookup_val ba ts _ t a (by rw [alloc_next]; omega) h,
        alloc_mem, if_neg (by omega : ¬ ba = s.next)]

theorem copyTasks_lookup_none (ba : ℕ) :
    ∀ (ts : List String) (s : Store) (t : String), t ∉ ts →
      lookup' t (copyTasks ba ts s).1 = none
  | [], _, _, _ => rfl
  | t0 :: ts, s, t, ht => by
    simp only [copyTasks, lookup', alloc_fst]
    rw [if_neg (fun h => ht (by rw [← h]; exact List.mem_cons_self t0 ts))]
    exact copyTasks_lookup_none ba ts _ t (fun h =>
      ht (List.mem_cons_of_mem _ h))

theorem copyTasks_lookup_isSome (ba : ℕ) :
    ∀ (ts : List String) (s : Store) (t : String), t ∈ ts →
      (lookup' t (copyTasks ba ts s).1).isSome
  | [], _, _, ht => absurd ht (by simp)
  | t0 :: ts, s, t, ht => by
    simp only [copyTasks, lookup', alloc_fst]
    by_cases h : t0 = t
    · rw [if_pos h]
      rfl
    · rw [if_neg h]
      refine copyTasks_lookup_isSome ba ts _ t ?_
      rcases List.mem_cons.mp ht with h' | h'
      · exact absurd h'.symm h
      · exact h'

theorem copyTasks_inj (ba : ℕ) :
    ∀ (ts : List String) (s : Store) (t t' : String) (a a' : ℕ),
      t ≠ t' → lookup' t (copyTasks ba ts s).1 = some a →
      lookup' t' (copyTasks ba ts s).1 = some a' → a ≠ a'
  | [], s, t, t', a, a', _, h, _ => by simp [copyTasks, lookup'] at h
  | t0 :: ts, s, t, t', a, a', hne, h, h' => by
    simp only [copyTasks, lookup', alloc_fst] at h h'
    by_cases ht : t0 = t
    · rw [if_pos ht] at h
      cases h
      rw [if_neg (fun he => hne (ht.symm.trans he))] at h'
      have := copyTasks_lookup_range ba ts _ t' a' h'
      rw [alloc_next] at this
      omega
    · rw [if_neg ht] at h
      by_cases ht' : t0 = t'
      · rw [if_pos ht'] at h'
        cases h'
        have := copyTasks_lookup_range ba ts _ t a h
        rw [alloc_next] at this
        omega
      · rw [if_neg ht'] at h'
        exact copyTasks_inj ba ts _ t t' a a' hne h h'

theorem copyLabels_next (tasks : List String) :
    ∀ (base : List (String × ℕ)) (s : Store),
      (copyLabels tasks base s).2.next =
        s.next + base.length * tasks.length
  | [], s => by simp [copyLabels]
  | (l0, ba0) :: rest, s => by
    simp only [copyLabels]
    rw [copyLabels_next tasks rest, copyTasks_next, List.length_cons]
    ring

theorem copyLabels_mem_lo (tasks : List String) :
    ∀ (base : List (String × ℕ)) (s : Store) (x : ℕ), x < s.next →
      (copyLabels tasks base s).2.mem x = s.mem x
  | [], _, _, _ => rfl
  | (l0, ba0) :: rest, s, x, hx => by
    simp only [copyLabels]
    rw [copyLabels_mem_lo tasks rest _ x (by rw [copyTasks_next]; omega),
      copyTasks_mem_lo ba0 tasks s x hx]

theorem copyLabels_cell_range (tasks : List String) :
    ∀ (base : List (String × ℕ)) (s : Store) (l t : String) (a : ℕ),
      lookupCell (copyLabels tasks base s).1 l t = some a →
      s.next ≤ a ∧ a < (copyLabels tasks base s).2.next
  | [], s, l, t, a => by simp [copyLabels, lookupCell, lookup']
  | (l0, ba0) :: rest, s, l, t, a => by
    simp only [copyLabels, lookupCell, lookup']
    by_cases h : l0 = l
    · rw [if_pos h]
      simp only [Option.some_bind]
      intro ha
      have h1 := copyTasks_lookup_range ba0 tasks s t a ha
      have h2 := copyLabels_next tasks rest (copyTasks ba0 tasks s).2
      have h3 := copyTasks_next ba0 tasks s
      omega
    · rw [if_neg h]
      intro ha
      have h1 := copyLabels_cell_range tasks rest _ l t a
        (by simpa [lookupCell] using ha)
      have h3 := copyTasks_next ba0 tasks s
      omega

theorem copyLabels_cell_val (tasks : List String) :
    ∀ (base : List (String × ℕ)) (s : Store) (l t : String) (ba a : ℕ),
      (∀ pb ∈ base, pb.2 < s.next) →
      lookup' l base = some ba →
      lookupCell (copyLabels tasks base s).1 l t = some a →
      (copyLabels tasks base s).2.mem a = s.mem ba
  | [], s, l, t, ba, a, _, hb, _ => by simp [lookup'] at hb
  | (l0, ba0) :: rest, s, l, t, ba, a, hv, hb, ha => by
    have hba0 : ba0 < s.next := hv (l0, ba0) (List.mem_cons_self _ _)
    simp only [copyLabels, lookupCell, lookup'] at ha ⊢
    rw [lookup'] at hb
    by_cases h : l0 = l
    · rw [if_pos h] at hb ha
      cases hb
      simp only [Option.some_bind] at ha
      have hrange := copyTasks_lookup_range ba0 tasks s t a ha
      rw [copyLabels_mem_lo tasks rest _ a (by
        rw [copyTasks_next]
        omega)]
      exact copyTasks_lookup_val ba0 tasks s t a hba0 ha
    · rw [if_neg h] at hb ha
      rw [copyLabels_cell_val tasks rest _ l t ba a (fun pb hpb => by
          have := hv pb (List.mem_cons_of_mem _ hpb)
          rw [copyTasks_next]
          omega) hb (by simpa [lookupCell] using ha)]
      have hbamem : ba < s.next :=
        hv (l, ba) (List.mem_cons_of_mem _ (lookup'_mem rest l ba hb))
      exact copyTasks_mem_lo ba0 tasks s ba hbamem

theorem copyLabels_cell_isSome (tasks : List String) :
    ∀ (base : List (String × ℕ)) (s : Store) (l t : String) (ba : ℕ),
      lookup' l base = some ba → t ∈ tasks →
      (lookupCell (copyLabels tasks base s).1 l t).isSome
  | [], s, l, t, ba, hb, _ => by simp [lookup'] at hb
  | (l0, ba0) :: rest, s, l, t, ba, hb, ht => by
    simp only [copyLabels, lookupCell, lookup']
    rw [lookup'] at hb
    by_cases h : l0 = l
    · rw [if_pos h]
      simp only [Option.some_bind]
      exact copyTasks_lookup_isSome ba0 tasks s t ht
    · rw [if_neg h] at hb ⊢
      exact copyLabels_cell_isSome tasks rest _ l t ba hb ht

theorem copyLabels_label_none (tasks : List String) :
    ∀ (base : List (String × ℕ)) (s : Store) (l : String),
      lookup' l base = none → lookup' l (copyLabels tasks base s).1 = none
  | [], _, _, _ => rfl
  | (l0, ba0) :: rest, s, l, hb => by
    simp only [copyLabels, lookup']
    rw [lookup'] at hb
    by_cases h : l0 = l
    · rw [if_pos h] at hb
      cases hb
    · rw [if_neg h] at hb ⊢
      exact copyLabels_label_none tasks rest _ l hb

theorem copyLabels_task_none (tasks : List String) :
    ∀ (base : List (String × ℕ)) (s : Store) (l t : String), t ∉ tasks →
      lookupCell (copyLabels tasks base s).1 l t = none
  | [], _, _, _, _ => rfl
  | (l0, ba0) :: rest, s, l, t, ht => by
    simp only [copyLabels, lookupCell, lookup']
    by_cases h : l0 = l
    · rw [if_pos h]
      simp only [Option.some_bind]
      exact copyTasks_lookup_none ba0 tasks s t ht
    · rw [if_neg h]
      have := copyLabels_task_none tasks rest (copyTasks ba0 tasks s).2 l
        t ht
      simpa [lookupCell] using this

theorem copyLabels_inj (tasks : List String) :
    ∀ (base : List (String × ℕ)) (s : Store) (l t l' t' : String)
      (a a' : ℕ),
      lookupCell (copyLabels tasks base s).1 l t = some a →
      lookupCell (copyLabels tasks base s).1 l' t' = some a' →
      ¬ (l = l' ∧ t = t') → a ≠ a'
  | [], s, l, t, l', t', a, a', h, _, _ => by
    simp [copyLabels, lookupCell, lookup'] at h
  | (l0, ba0) :: rest, s, l, t, l', t', a, a', h, h', hne => by
    simp only [copyLabels, lookupCell, lookup'] at h h'
    by_cases hl : l0 = l
    · rw [if_pos hl] at h
      simp only [Option.some_bind] at h
      by_cases hl' : l0 = l'
      · rw [if_pos hl'] at h'
        simp only [Option.some_bind] at h'
        have hll : l = l' := hl.symm.trans hl'
        have htt : t ≠ t' := fun he => hne ⟨hll, he⟩
        exact copyTasks_inj ba0 tasks s t t' a a' htt h h'
      · rw [if_neg hl'] at h'
        have h1 := copyTasks_lookup_range ba0 tasks s t a h
        have h2 := copyLabels_cell_range tasks rest _ l' t' a'
          (by simpa [lookupCell] using h')
        have h3 := copyTasks_next ba0 tasks s
        omega
    · rw [if_neg hl] at h
      by_cases hl' : l0 = l'
      · rw [if_pos hl'] at h'
        simp only [Option.some_bind] at h'
        have h1 := copyTasks_lookup_range ba0 tasks s t' a' h'
        have h2 := copyLabels_cell_range tasks rest _ l t a
          (by simpa [lookupCell] using h)
        have h3 := copyTasks_next ba0 tasks s
        omega
      · rw [if_neg hl'] at h'
        exact copyLabels_inj tasks rest _ l t l' t' a a'
          (by simpa [lookupCell] using h) (by simpa [lookupCell] using h')
          hne

theorem applyCellWritesT_next (tbl : Table) :
    ∀ (ws : List (String × String × ℚ)) (s : Store),
      (applyCellWritesT tbl s ws).next = s.next
  | [], _ => rfl
  | (l, t, v) :: ws, s => by
    simp only [applyCellWritesT]
    rcases hlc : lookupCell tbl l t with _ | aw <;> simp only [hlc]
    · exact applyCellWritesT_next tbl ws s
    · rw [applyCellWritesT_next tbl ws, writeIdx1_next]

theorem applyCellWritesT_unchanged (tbl : Table) :
    ∀ (ws : List (String × String × ℚ)) (s : Store) (x : ℕ),
      (∀ w ∈ ws, ∀ aw, lookupCell tbl w.1 w.2.1 = some aw → x ≠ aw) →
      (applyCellWritesT tbl s ws).mem x = s.mem x
  | [], _, _, _ => rfl
  | (l, t, v) :: ws, s, x, h => by
    simp only [applyCellWritesT]
    rcases hlc : lookupCell tbl l t with _ | aw <;> simp only [hlc]
    · exact applyCellWritesT_unchanged tbl ws s x
        (fun w hw => h w (List.mem_cons_of_mem _ hw))
    · rw [applyCellWritesT_unchanged tbl ws _ x
        (fun w hw => h w (List.mem_cons_of_mem _ hw)), writeIdx1_mem,
        if_neg (h (l, t, v) (List.mem_cons_self _ _) aw hlc)]

theorem applyCellWritesT_mem_spec (tbl : Table) :
    ∀ (ws : List (String × String × ℚ)) (s : Store) (l t : String)
      (a : ℕ),
      lookupCell tbl l t = some a →
      (∀ w ∈ ws, ∀ aw, lookupCell tbl w.1 w.2.1 = some aw →
        (a = aw ↔ (w.1 = l ∧ w.2.1 = t))) →
      (∀ w ∈ ws, (lookupCell tbl w.1 w.2.1).isSome) →
      (applyCellWritesT tbl s ws).mem a =
        ws.foldl (fun acc w => if w.1 = l ∧ w.2.1 = t then
          acc.set 1 w.2.2 else acc) (s.mem a)
  | [], _, _, _, _, _, _, _ => rfl
  | (lw, tw, vw) :: ws, s, l, t, a, ha, hiff, hsome => by
    have hs := hsome (lw, tw, vw) (List.mem_cons_self _ _)
    rcases hlc : lookupCell tbl lw tw with _ | aw
    · rw [hlc] at hs
      simp at hs
    · simp only [applyCellWritesT, hlc, List.foldl_cons]
      rw [applyCellWritesT_mem_spec tbl ws _ l t a ha
        (fun w hw => hiff w (List.mem_cons_of_mem _ hw))
        (fun w hw => hsome w (List.mem_cons_of_mem _ hw))]
      congr 1
      have hiffw := hiff (lw, tw, vw) (List.mem_cons_self _ _) aw hlc
      rw [writeIdx1_mem]
      by_cases hc : lw = l ∧ tw = t
      · have haw : a = aw := hiffw.mpr hc
        rw [if_pos haw, if_pos hc, haw]
      · rw [if_neg (fun he => hc (hiffw.mp he)), if_neg hc]

theorem mem_if_block {g : Prop} [Decidable g]
    (l : List (String × String × ℚ)) (w : String × String × ℚ)
    (h : w ∈ (if g then l else [])) : g ∧ w ∈ l := by
  by_cases hg : g
  · rw [if_pos hg] at h
    exact ⟨hg, h⟩
  · rw [if_neg hg] at h
    cases h

theorem writesFor_mem (tasks : List String) (red : ℚ)
    (w : String × String × ℚ) (hw : w ∈ writesFor tasks red) :
    (w.1 = "G_precentral-lh" ∨ w.1 = "G_precentral-rh") ∧
      w.2.1 ∈ tasks := by
  simp only [writesFor, List.mem_append] at hw
  rcases hw with (h | h) | h
  · obtain ⟨hg, hm⟩ := mem_if_block _ _ h
    rcases List.mem_cons.mp hm with rfl | hm2
    · exact ⟨Or.inl rfl, hg⟩
    · rcases List.mem_singleton.mp hm2 with rfl
      exact ⟨Or.inr rfl, hg⟩
  · obtain ⟨hg, hm⟩ := mem_if_block _ _ h
    rcases List.mem_cons.mp hm with rfl | hm2
    · exact ⟨Or.inr rfl, hg⟩
    · rcases List.mem_singleton.mp hm2 with rfl
      exact ⟨Or.inl rfl, hg⟩
  · obtain ⟨hg, hm⟩ := mem_if_block _ _ h
    rcases List.mem_cons.mp hm with rfl | hm2
    · exact ⟨Or.inr rfl, hg⟩
    · rcases List.mem_singleton.mp hm2 with rfl
      exact ⟨Or.inl rfl, hg⟩

theorem applyCellWritesT_append (tbl : Table) :
    ∀ (ws1 ws2 : List (String × String × ℚ)) (s : Store),
      applyCellWritesT tbl s (ws1 ++ ws2) =
        applyCellWritesT tbl (applyCellWritesT tbl s ws1) ws2
  | [], _, _ => rfl
  | (l, t, v) :: ws1, ws2, s => by
    simp only [List.cons_append, applyCellWritesT]
    rcases hlc : lookupCell tbl l t with _ | aw <;> simp only [hlc] <;>
      exact applyCellWritesT_append tbl ws1 ws2 _

theorem block_eq (tbl : Table) (s : Store) (g : Prop) [Decidable g]
    (l1 t1 : String) (v1 : ℚ) (l2 t2 : String) (v2 : ℚ)
    (h1 : g → ∃ a, lookupCell tbl l1 t1 = some a)
    (h2 : g → ∃ a, lookupCell tbl l2 t2 = some a) :
    (if g then (setCell tbl s l1 t1 v1).bind
        (fun s1 => setCell tbl s1 l2 t2 v2)
      else some s) =
    some (applyCellWritesT tbl s
      (if g then [(l1, t1, v1), (l2, t2, v2)] else [])) := by
  by_cases hg : g
  · obtain ⟨a1, ha1⟩ := h1 hg
    obtain ⟨a2, ha2⟩ := h2 hg
    rw [if_pos hg, if_pos hg]
    simp [setCell, ha1, ha2, applyCellWritesT]
  · rw [if_neg hg, if_neg hg]
    rfl

theorem spa_eq (tasks : List String) (base : List (String × ℕ))
    (red : ℚ) (s : Store) (balh barh : ℕ)
    (hlh : lookup' ("G_precentral-lh") base = some balh)
    (hrh : lookup' ("G_precentral-rh") base = some barh) :
    set_peak_amplitudes tasks base red s =
      some ((copyLabels tasks base s).1,
        applyCellWritesT (copyLabels tasks base s).1
          (copyLabels tasks base s).2 (writesFor tasks red)) := by
  have hLlh : ∀ hg : ("MI/left") ∈ tasks, ∃ a,
      lookupCell (copyLabels tasks base s).1 ("G_precentral-lh")
        ("MI/left") = some a := fun hg =>
    Option.isSome_iff_exists.mp
      (copyLabels_cell_isSome tasks base s _ _ balh hlh hg)
  have hLrh : ∀ hg : ("MI/left") ∈ tasks, ∃ a,
      lookupCell (copyLabels tasks base s).1 ("G_precentral-rh")
        ("MI/left") = some a := fun hg =>
    Option.isSome_iff_exists.mp
      (copyLabels_cell_isSome tasks base s _ _ barh hrh hg)
  have hRrh : ∀ hg : ("MI/right") ∈ tasks, ∃ a,
      lookupCell (copyLabels tasks base s).1 ("G_precentral-rh")
        ("MI/right") = some a := fun hg =>
    Option.isSome_iff_exists.mp
      (copyLabels_cell_isSome tasks base s _ _ barh hrh hg)
  have hRlh : ∀ hg : ("MI/right") ∈ tasks, ∃ a,
      lookupCell (copyLabels tasks base s).1 ("G_precentral-lh")
        ("MI/right") = some a := fun hg =>
    Option.isSome_iff_exists.mp
      (copyLabels_cell_isSome tasks base s _ _ balh hlh hg)
  have hTrh : ∀ hg : ("rest") ∈ tasks, ∃ a,
      lookupCell (copyLabels tasks base s).1 ("G_precentral-rh")
        ("rest") = some a := fun hg =>
    Option.isSome_iff_exists.mp
      (copyLabels_cell_isSome tasks base s _ _ barh hrh hg)
  have hTlh : ∀ hg : ("rest") ∈ tasks, ∃ a,
      lookupCell (copyLabels tasks base s).1 ("G_precentral-lh")
        ("rest") = some a := fun hg =>
    Option.isSome_iff_exists.mp
      (copyLabels_cell_isSome tasks base s _ _ balh hlh hg)
  simp only [set_peak_amplitudes]
  rw [block_eq _ _ _ _ _ _ _ _ _ hLlh hLrh, Option.some_bind,
    block_eq _ _ _ _ _ _ _ _ _ hRrh hRlh, Option.some_bind,
    block_eq _ _ _ _ _ _ _ _ _ hTrh hTlh, Option.map_some']
  rw [writesFor, applyCellWritesT_append, applyCellWritesT_append]

theorem spa_spec (tasks : List String) (base : List (String × ℕ))
    (red : ℚ) (s : Store) (balh barh : ℕ)
    (hlh : lookup' ("G_precentral-lh") base = some balh)
    (hrh : lookup' ("G_precentral-rh") base = some barh)
    (hv : ∀ pb ∈ base, pb.2 < s.next) :
    ∃ sf, set_peak_amplitudes tasks base red s =
        some ((copyLabels tasks base s).1, sf) ∧
      s.next ≤ sf.next ∧
      (∀ x, x < s.next → sf.mem x = s.mem x) ∧
      (∀ l t ba, lookup' l base = some ba → t ∈ tasks →
        readCell (copyLabels tasks base s).1 sf l t =
          some (expectedCellVal (s.mem ba) tasks red l t)) ∧
      (∀ l t, lookup' l base = none →
        readCell (copyLabels tasks base s).1 sf l t = none) ∧
      (∀ l t, t ∉ tasks →
        readCell (copyLabels tasks base s).1 sf l t = none) := by
  have hsome : ∀ w ∈ writesFor tasks red,
      (lookupCell (copyLabels tasks base s).1 w.1 w.2.1).isSome := by
    intro w hw
    obtain ⟨hside, htask⟩ := writesFor_mem tasks red w hw
    rcases hside with h | h
    · rw [h]
      exact copyLabels_cell_isSome tasks base s _ _ balh hlh htask
    · rw [h]
      exact copyLabels_cell_isSome tasks base s _ _ barh hrh htask
  refine ⟨applyCellWritesT (copyLabels tasks base s).1
    (copyLabels tasks base s).2 (writesFor tasks red),
    spa_eq tasks base red s balh barh hlh hrh, ?_, ?_, ?_, ?_, ?_⟩
  · rw [applyCellWritesT_next, copyLabels_next]
    omega
  · intro x hx
    rw [applyCellWritesT_unchanged _ _ _ x (fun w hw aw haw => by
      have := (copyLabels_cell_range tasks base s w.1 w.2.1 aw haw).1
      omega)]
    exact copyLabels_mem_lo tasks base s x hx
  · intro l t ba hl ht
    obtain ⟨a, ha⟩ := Option.isSome_iff_exists.mp
      (copyLabels_cell_isSome tasks base s l t ba hl ht)
    rw [readCell, ha]
    simp only [Option.map_some']
    congr 1
    rw [applyCellWritesT_mem_spec _ _ _ l t a ha
      (fun w hw aw haw => by
        constructor
        · intro hae
          by_contra hne
          exact copyLabels_inj tasks base s w.1 w.2.1 l t aw a haw ha hne
            (by omega)
        · rintro ⟨he1, he2⟩
          rw [he1, he2] at haw
          exact (Option.some.inj (haw.symm.trans ha)).symm)
      hsome]
    rw [copyLabels_cell_val tasks base s l t ba a hv hl ha]
    rfl
  · intro l t hl
    rw [readCell, lookupCell, copyLabels_label_none tasks base s l hl]
    rfl
  · intro l t ht
    rw [readCell, copyLabels_task_none tasks base s l t ht]
    rfl

theorem ecv_lh_left (v : List ℚ) (tasks : List String) (red : ℚ)
    (hL : ("MI/left") ∈ tasks) :
    expectedCellVal v tasks red ("G_precentral-lh") ("MI/left") =
      v.set 1 0.4 := by
  simp only [expectedCellVal, writesFor, if_pos hL, List.foldl_append]
  by_cases hR : ("MI/right") ∈ tasks <;>
    by_cases hT : ("rest") ∈ tasks <;>
      simp [hR, hT, List.foldl_cons, List.foldl_nil]

theorem ecv_rh_left (v : List ℚ) (tasks : List String) (red : ℚ)
    (hL : ("MI/left") ∈ tasks) :
    expectedCellVal v tasks red ("G_precentral-rh") ("MI/left") =
      v.set 1 (0.4 * (1 - red)) := by
  simp only [expectedCellVal, writesFor, if_pos hL, List.foldl_append]
  by_cases hR : ("MI/right") ∈ tasks <;>
    by_cases hT : ("rest") ∈ tasks <;>
      simp [hR, hT, List.foldl_cons, List.foldl_nil]

theorem ecv_rh_right (v : List ℚ) (tasks : List String) (red : ℚ)
    (hR : ("MI/right") ∈ tasks) :
    expectedCellVal v tasks red ("G_precentral-rh") ("MI/right") =
      v.set 1 0.4 := by
  simp only [expectedCellVal, writesFor, if_pos hR, List.foldl_append]
  by_cases hL : ("MI/left") ∈ tasks <;>
    by_cases hT : ("rest") ∈ tasks <;>
      simp [hL, hT, List.foldl_cons, List.foldl_nil]

theorem ecv_lh_right (v : List ℚ) (tasks : List String) (red : ℚ)
    (hR : ("MI/right") ∈ tasks) :
    expectedCellVal v tasks red ("G_precentral-lh") ("MI/right") =
      v.set 1 (0.4 * (1 - red)) := by
  simp only [expectedCellVal, writesFor, if_pos hR, List.foldl_append]
  by_cases hL : ("MI/left") ∈ tasks <;>
    by_cases hT : ("rest") ∈ tasks <;>
      simp [hL, hT, List.foldl_cons, List.foldl_nil]

theorem ecv_rh_rest (v : List ℚ) (tasks : List String) (red : ℚ)
    (hT : ("rest") ∈ tasks) :
    expectedCellVal v tasks red ("G_precentral-rh") ("rest") =
      v.set 1 0.4 := by
  simp only [expectedCellVal, writesFor, if_pos hT, List.foldl_append]
  by_cases hL : ("MI/left") ∈ tasks <;>
    by_cases hR : ("MI/right") ∈ tasks <;>
      simp [hL, hR, List.foldl_cons, List.foldl_nil]

theorem ecv_lh_rest (v : List ℚ) (tasks : List String) (red : ℚ)
    (hT : ("rest") ∈ tasks) :
    expectedCellVal v tasks red ("G_precentral-lh") ("rest") =
      v.set 1 0.4 := by
  simp only [expectedCellVal, writesFor, if_pos hT, List.foldl_append]
  by_cases hL : ("MI/left") ∈ tasks <;>
    by_cases hR : ("MI/right") ∈ tasks <;>
      simp [hL, hR, List.foldl_cons, List.foldl_nil]

/-- Claim C1 (confirmed): for every base peak table containing both
precentral labels (with parameter lists long enough to hold the relative
power at index 1) and every requested task set, `set_peak_amplitudes`
assigns the relative-power entry as the claim states: on `MI/left`,
`G_precentral-lh` gets 0.4 and `G_precentral-rh` gets `0.4*(1-reduction)`;
on `MI/right`, `G_precentral-rh` gets 0.4 and `G_precentral-lh` gets
`0.4*(1-reduction)`; on `rest`, both get 0.4. -/
theorem C1_peak_amplitudes (MI_tasks : List String)
    (user_peak_params : List (String × ℕ)) (reduction : ℚ) (s : Store)
    (balh barh : ℕ)
    (hlh : lookup' ("G_precentral-lh") user_peak_params = some balh)
    (hrh : lookup' ("G_precentral-rh") user_peak_params = some barh)
    (hv : ∀ pb ∈ user_peak_params, pb.2 < s.next)
    (hlenl : 2 ≤ (s.mem balh).length) (hlenr : 2 ≤ (s.mem barh).length) :
    ∃ tbl sf, set_peak_amplitudes MI_tasks user_peak_params reduction s =
        some (tbl, sf) ∧
      (("MI/left") ∈ MI_tasks →
        readIdx1 tbl sf ("G_precentral-lh") ("MI/left") = some 0.4 ∧
        readIdx1 tbl sf ("G_precentral-rh") ("MI/left") =
          some (0.4 * (1 - reduction))) ∧
      (("MI/right") ∈ MI_tasks →
        readIdx1 tbl sf ("G_precentral-rh") ("MI/right") = some 0.4 ∧
        readIdx1 tbl sf ("G_precentral-lh") ("MI/right") =
          some (0.4 * (1 - reduction))) ∧
      (("rest") ∈ MI_tasks →
        readIdx1 tbl sf ("G_precentral-rh") ("rest") = some 0.4 ∧
        readIdx1 tbl sf ("G_precentral-lh") ("rest") = some 0.4) := by
  obtain ⟨sf, hmain, _hnext, _hlo, hread, _hn1, _hn2⟩ :=
    spa_spec MI_tasks user_peak_params reduction s balh barh hlh hrh hv
  refine ⟨(copyLabels MI_tasks user_peak_params s).1, sf, hmain, ?_, ?_, ?_⟩
  · intro hL
    constructor
    · rw [readIdx1, hread _ _ balh hlh hL, Option.map_some',
        ecv_lh_left _ _ _ hL,
        list_getD_set_self _ 1 _ 0 (by omega)]
    · rw [readIdx1, hread _ _ barh hrh hL, Option.map_some',
        ecv_rh_left _ _ _ hL,
        list_getD_set_self _ 1 _ 0 (by omega)]
  · intro hR
    constructor
    · rw [readIdx1, hread _ _ barh hrh hR, Option.map_some',
        ecv_rh_right _ _ _ hR,
        list_getD_set_self _ 1 _ 0 (by omega)]
    · rw [readIdx1, hread _ _ balh hlh hR, Option.map_some',
        ecv_lh_right _ _ _ hR,
        list_getD_set_self _ 1 _ 0 (by omega)]
  · intro hT
    constructor
    · rw [readIdx1, hread _ _ barh hrh hT, Option.map_some',
        ecv_rh_rest _ _ _ hT,
        list_getD_set_self _ 1 _ 0 (by omega)]
    · rw [readIdx1, hread _ _ balh hlh hT, Option.map_some',
        ecv_lh_rest _ _ _ hT,
        list_getD_set_self _ 1 _ 0 (by omega)]

/-- Claim C1 witness: a concrete two-label base table with
`reduction = 1/2` and tasks `[MI/left, MI/right]`: the
`G_precentral-rh`/`MI/left` power level equals `0.4*(1-0.5) = 1/5 = 0.2`
while `G_precentral-lh`/`MI/left` equals `2/5 = 0.4`. -/
theorem C1_peak_amplitudes_witness :
    ∃ tbl sf, set_peak_amplitudes ["MI/left", "MI/right"] baseC (1/2)
        storeC = some (tbl, sf) ∧
      readIdx1 tbl sf ("G_precentral-rh") ("MI/left") = some (1/5) ∧
      readIdx1 tbl sf ("G_precentral-lh") ("MI/left") = some (2/5) := by
  obtain ⟨tbl, sf, hmain, hleft, _, _⟩ :=
    C1_peak_amplitudes ["MI/left", "MI/right"] baseC (1/2) storeC 0 1
      (by decide) (by decide) (by decide) (by decide) (by decide)
  obtain ⟨h1, h2⟩ := hleft (by decide)
  rw [show ((0.4 : ℚ) * (1 - 1/2)) = 1/5 by norm_num] at h2
  rw [show (0.4 : ℚ) = 2/5 by norm_num] at h1
  exact ⟨tbl, sf, hmain, h2, h1⟩

/-- Claim C9 (confirmed): `set_peak_amplitudes` is idempotent and
side-effect-free on its inputs.  Calling it twice with identical task
lists, base table and reduction (the second call running on the heap the
first call left behind) yields extensionally identical output tables; the
base table's parameter lists are unchanged by the call; and within one
output table, mutating the entry of one task (an index-1 assignment on its
parameter-list address) never alters another task's entry, because each
per-task row is an independent fresh copy. -/
theorem C9_resolver_independence (MI_tasks : List String)
    (user_peak_params : List (String × ℕ)) (reduction : ℚ) (s : Store)
    (balh barh : ℕ)
    (hlh : lookup' ("G_precentral-lh") user_peak_params = some balh)
    (hrh : lookup' ("G_precentral-rh") user_peak_params = some barh)
    (hv : ∀ pb ∈ user_peak_params, pb.2 < s.next) :
    ∃ tbl1 s1 tbl2 s2,
      set_peak_amplitudes MI_tasks user_peak_params reduction s =
        some (tbl1, s1) ∧
      set_peak_amplitudes MI_tasks user_peak_params reduction s1 =
        some (tbl2, s2) ∧
      (∀ l t, readCell tbl1 s1 l t = readCell tbl2 s2 l t) ∧
      (∀ pb ∈ user_peak_params, s1.mem pb.2 = s.mem pb.2) ∧
      (∀ l t t' a a' v, t ≠ t' →
        lookupCell tbl1 l t = some a → lookupCell tbl1 l t' = some a' →
        (writeIdx1 s1 a v).mem a' = s1.mem a') := by
  obtain ⟨s1, h1main, h1ge, h1lo, h1read, h1ln, h1tn⟩ :=
    spa_spec MI_tasks user_peak_params reduction s balh barh hlh hrh hv
  have hv1 : ∀ pb ∈ user_peak_params, pb.2 < s1.next := fun pb hpb =>
    lt_of_lt_of_le (hv pb hpb) h1ge
  obtain ⟨s2, h2main, _h2ge, _h2lo, h2read, h2ln, h2tn⟩ :=
    spa_spec MI_tasks user_peak_params reduction s1 balh barh hlh hrh hv1
  refine ⟨_, s1, _, s2, h1main, h2main, ?_, ?_, ?_⟩
  · intro l t
    rcases hbase : lookup' l user_peak_params with _ | ba
    · rw [h1ln l t hbase, h2ln l t hbase]
    · by_cases ht : t ∈ MI_tasks
      · rw [h1read l t ba hbase ht, h2read l t ba hbase ht]
        have hmem : (l, ba) ∈ user_peak_params := lookup'_mem _ l ba hbase
        rw [h1lo ba (hv (l, ba) hmem)]
      · rw [h1tn l t ht, h2tn l t ht]
  · intro pb hpb
    exact h1lo pb.2 (hv pb hpb)
  · intro l t t' a a' v hne ha ha'
    have hinj : a ≠ a' := copyLabels_inj MI_tasks user_peak_params s
      l t l t' a a' ha ha' (fun hc => hne hc.2)
    rw [writeIdx1_mem, if_neg (fun he : a' = a => hinj he.symm)]

/-- Claim C9 witness: two consecutive calls on the concrete table with
tasks `[MI/left, rest]` and `reduction = 1/2` produce identical output
tables and leave the base lists untouched. -/
theorem C9_resolver_independence_witness :
    ∃ tbl1 s1 tbl2 s2,
      set_peak_amplitudes ["MI/left", "rest"] baseC (1/2) storeC =
        some (tbl1, s1) ∧
      set_peak_amplitudes ["MI/left", "rest"] baseC (1/2) s1 =
        some (tbl2, s2) ∧
      (∀ l t, readCell tbl1 s1 l t = readCell tbl2 s2 l t) ∧
      (∀ pb ∈ baseC, s1.mem pb.2 = storeC.mem pb.2) := by
  obtain ⟨tbl1, s1, tbl2, s2, h1, h2, h3, h4, _⟩ :=
    C9_resolver_independence ["MI/left", "rest"] baseC (1/2) storeC 0 1
      (by decide) (by decide) (by decide)
  exact ⟨tbl1, s1, tbl2, s2, h1, h2, h3, h4⟩
